import Mathlib

/-!
Verification of the `csaf-rs` crate: a shallow embedding of the CSAF document
model (`Csaf` in `src/lib.rs`, together with the record and enum types of its
`document` / `product_tree` / `vulnerability` / `definitions` / `interop`
modules) and of the serde-JSON serialization contract the crate relies on.

The wire format is JSON.  We embed JSON values as the inductive type `Json`
(object members kept in order, first occurrence of a key wins on lookup, which
is how the derived serde deserializers consume maps), a deterministic renderer
`renderJson` producing the byte text, and a total recursive-descent text
reader `parseVal` (fuel-indexed for structural termination; the fuel supplied
by `parseText` always suffices, see `sizeJ_lt_length_renderJson`).

Floating point numbers are not modelled: the modelled schema fragment has no
numeric field (CSAF tracking versions and revision numbers are JSON strings),
and floating point round-tripping is outside the scope of this development.
-/

/-- JSON values: the external structured-text encoding of the serialization
contract. Object members are an ordered association list; duplicate keys are
representable and lookup takes the first occurrence. -/
inductive Json where
  | null : Json
  | bool (b : Bool) : Json
  | str (s : String) : Json
  | arr (elems : List Json) : Json
  | obj (members : List (String × Json)) : Json

/-- The opening brace character. -/
def lbraceC : Char := Char.ofNat 123

/-- The closing brace character. -/
def rbraceC : Char := Char.ofNat 125

/-- Escape a single character for inclusion in a JSON string literal, the way
`serde_json` does: quote and backslash get a backslash escape, control
characters become `\u00XY`, everything else is emitted verbatim. -/
def escChar (c : Char) : List Char :=
  if c = '"' then ['\\', '"']
  else if c = '\\' then ['\\', '\\']
  else if c.toNat < 32 then
    ['\\', 'u', '0', '0', hexDig (c.toNat / 16), hexDig (c.toNat % 16)]
  else [c]
where
  /-- Lower-case hexadecimal digit for a nibble. -/
  hexDig (n : Nat) : Char :=
    if n < 10 then Char.ofNat (48 + n) else Char.ofNat (87 + n)

/-- Escape a list of characters (the body of a JSON string literal). -/
def escList : List Char → List Char
  | [] => []
  | c :: rest => escChar c ++ escList rest

/-- Render a JSON string literal, quotes included. -/
def renderStr (s : String) : List Char :=
  '"' :: (escList s.data ++ ['"'])

mutual

/-- Render a JSON value to its compact text form (no whitespace), with object
members emitted in their stored order: the deterministic `serialize` text. -/
def renderJson : Json → List Char
  | .null => ['n', 'u', 'l', 'l']
  | .bool true => 't' :: ['r', 'u', 'e']
  | .bool false => ['f', 'a', 'l', 's', 'e']
  | .str s => renderStr s
  | .arr es => '[' :: (renderElems es ++ [']'])
  | .obj ms => lbraceC :: (renderMems ms ++ [rbraceC])

/-- Render the elements of a JSON array, comma separated. -/
def renderElems : List Json → List Char
  | [] => []
  | j :: js => renderJson j ++ renderElemsTail js

/-- Render the second and later elements of a JSON array, each preceded by a
comma. -/
def renderElemsTail : List Json → List Char
  | [] => []
  | j :: js => ',' :: (renderJson j ++ renderElemsTail js)

/-- Render the members of a JSON object, comma separated. -/
def renderMems : List (String × Json) → List Char
  | [] => []
  | (k, v) :: ms => renderStr k ++ (':' :: (renderJson v ++ renderMemsTail ms))

/-- Render the second and later members of a JSON object, each preceded by a
comma. -/
def renderMemsTail : List (String × Json) → List Char
  | [] => []
  | (k, v) :: ms => ',' :: (renderStr k ++ (':' :: (renderJson v ++ renderMemsTail ms)))

end

/-- Whitespace characters the JSON reader skips. -/
def isWs (c : Char) : Bool :=
  c = ' ' || c = '\n' || c = '\t' || c = '\r'

/-- Drop leading whitespace. -/
def skipWs : List Char → List Char
  | [] => []
  | c :: rest => if isWs c then skipWs rest else c :: rest

/-- Value of a hexadecimal digit character. -/
def hexVal (c : Char) : Option Nat :=
  if 48 ≤ c.toNat ∧ c.toNat ≤ 57 then some (c.toNat - 48)
  else if 97 ≤ c.toNat ∧ c.toNat ≤ 102 then some (c.toNat - 87)
  else if 65 ≤ c.toNat ∧ c.toNat ≤ 70 then some (c.toNat - 55)
  else none

/-- Resolution of a single-character escape sequence. -/
def unescChar (c : Char) : Option Char :=
  if c = '"' then some '"'
  else if c = '\\' then some '\\'
  else if c = '/' then some '/'
  else if c = 'n' then some '\n'
  else if c = 't' then some '\t'
  else if c = 'r' then some '\r'
  else if c = 'b' then some (Char.ofNat 8)
  else if c = 'f' then some (Char.ofNat 12)
  else none

/-- Read the body of a JSON string literal (the opening quote already
consumed) up to and including the closing quote, resolving escapes; returns
the decoded characters and the unconsumed input. -/
def parseStrBody : List Char → Option (List Char × List Char)
  | [] => none
  | c :: rest =>
    if c = '"' then some ([], rest)
    else if c = '\\' then
      match rest with
      | 'u' :: h1 :: h2 :: h3 :: h4 :: rest' =>
        match hexVal h1, hexVal h2, hexVal h3, hexVal h4 with
        | some a, some b, some c', some d =>
          (parseStrBody rest').map fun p => (Char.ofNat (((a * 16 + b) * 16 + c') * 16 + d) :: p.1, p.2)
        | _, _, _, _ => none
      | e :: rest' =>
        match unescChar e with
        | some c' => (parseStrBody rest').map fun p => (c' :: p.1, p.2)
        | none => none
      | [] => none
    else (parseStrBody rest).map fun p => (c :: p.1, p.2)

mutual

/-- Read one JSON value from the input, skipping leading whitespace.  The
`fuel` argument only serves structural termination; `parseText` supplies
enough for any input it is given. -/
def parseVal : Nat → List Char → Option (Json × List Char)
  | 0, _ => none
  | fuel + 1, cs =>
    match skipWs cs with
    | [] => none
    | c :: rest =>
      if c = 'n' then
        match rest with
        | 'u' :: 'l' :: 'l' :: r => some (.null, r)
        | _ => none
      else if c = 't' then
        match rest with
        | 'r' :: 'u' :: 'e' :: r => some (.bool true, r)
        | _ => none
      else if c = 'f' then
        match rest with
        | 'a' :: 'l' :: 's' :: 'e' :: r => some (.bool false, r)
        | _ => none
      else if c = '"' then
        match parseStrBody rest with
        | some (s, r) => some (.str (String.mk s), r)
        | none => none
      else if c = '[' then parseArr fuel (skipWs rest)
      else if c = lbraceC then parseObj fuel (skipWs rest)
      else none

/-- Read the inside of a JSON array (opening bracket and following whitespace
already consumed). -/
def parseArr : Nat → List Char → Option (Json × List Char)
  | 0, _ => none
  | fuel + 1, cs =>
    match cs with
    | [] => none
    | c :: rest =>
      if c = ']' then some (.arr [], rest)
      else
        match parseVal fuel (c :: rest) with
        | some (j, r) =>
          match parseArrSep fuel r with
          | some (js, r') => some (.arr (j :: js), r')
          | none => none
        | none => none

/-- After one array element: read `, element` repetitions up to the closing
bracket. -/
def parseArrSep : Nat → List Char → Option (List Json × List Char)
  | 0, _ => none
  | fuel + 1, cs =>
    match skipWs cs with
    | [] => none
    | c :: rest =>
      if c = ']' then some ([], rest)
      else if c = ',' then
        match parseVal fuel rest with
        | some (j, r) =>
          match parseArrSep fuel r with
          | some (js, r') => some (j :: js, r')
          | none => none
        | none => none
      else none

/-- Read the inside of a JSON object (opening brace and following whitespace
already consumed). -/
def parseObj : Nat → List Char → Option (Json × List Char)
  | 0, _ => none
  | fuel + 1, cs =>
    match cs with
    | [] => none
    | c :: rest =>
      if c = rbraceC then some (.obj [], rest)
      else
        match parseMem fuel (c :: rest) with
        | some (m, r) =>
          match parseObjSep fuel r with
          | some (ms, r') => some (.obj (m :: ms), r')
          | none => none
        | none => none

/-- Read one `"key" : value` member of a JSON object. -/
def parseMem : Nat → List Char → Option ((String × Json) × List Char)
  | 0, _ => none
  | fuel + 1, cs =>
    match cs with
    | [] => none
    | c :: rest =>
      if c = '"' then
        match parseStrBody rest with
        | some (k, r) =>
          match skipWs r with
          | c2 :: r2 =>
            if c2 = ':' then
              match parseVal fuel r2 with
              | some (v, r3) => some ((String.mk k, v), r3)
              | none => none
            else none
          | [] => none
        | none => none
      else none

/-- After one object member: read `, member` repetitions up to the closing
brace. -/
def parseObjSep : Nat → List Char → Option (List (String × Json) × List Char)
  | 0, _ =>  none
  | fuel + 1, cs =>
    match skipWs cs with
    | [] => none
    | c :: rest =>
      if c = rbraceC then some ([], rest)
      else if c = ',' then
        match parseMem fuel (skipWs rest) with
        | some (m, r) =>
          match parseObjSep fuel r with
          | some (ms, r') => some (m :: ms, r')
          | none => none
        | none => none
      else none

end

mutual

/-- Structural size of a JSON value, used to bound the fuel the reader
needs. -/
def sizeJ : Json → Nat
  | .null => 1
  | .bool _ => 1
  | .str _ => 1
  | .arr es => 1 + sizeElems es
  | .obj ms => 1 + sizeMems ms

/-- Structural size of a list of array elements. -/
def sizeElems : List Json → Nat
  | [] => 0
  | j :: js => 1 + sizeJ j + sizeElems js

/-- Structural size of a list of object members. -/
def sizeMems : List (String × Json) → Nat
  | [] => 0
  | (_, v) :: ms => 2 + sizeJ v + sizeMems ms

end

lemma skipWs_cons_not (c : Char) (xs : List Char) (h : isWs c = false) :
    skipWs (c :: xs) = c :: xs := by
  simp [skipWs, h]

lemma hexVal_hexDig : ∀ n : Nat, n < 16 → hexVal (escChar.hexDig n) = some n := by decide

lemma mk_data_eq (s : String) : String.mk s.data = s := rfl

lemma parseStrBody_quote (xs : List Char) : parseStrBody ('"' :: xs) = some ([], xs) := by
  rw [parseStrBody.eq_def]; simp

lemma parseStrBody_plain (c : Char) (h1 : c ≠ '"') (h2 : c ≠ '\\') (xs : List Char) :
    parseStrBody (c :: xs) = (parseStrBody xs).map fun p => (c :: p.1, p.2) := by
  rw [parseStrBody.eq_def]; simp [h1, h2]

lemma parseStrBody_esc_quote (xs : List Char) :
    parseStrBody ('\\' :: '"' :: xs) = (parseStrBody xs).map fun p => ('"' :: p.1, p.2) := by
  rw [parseStrBody.eq_def]; simp [unescChar]

lemma parseStrBody_esc_back (xs : List Char) :
    parseStrBody ('\\' :: '\\' :: xs) = (parseStrBody xs).map fun p => ('\\' :: p.1, p.2) := by
  rw [parseStrBody.eq_def]; simp [unescChar]

lemma parseStrBody_esc_u (dhi dlo : Char) (nhi nlo : Nat)
    (hhi : hexVal dhi = some nhi) (hlo : hexVal dlo = some nlo) (xs : List Char) :
    parseStrBody ('\\' :: 'u' :: '0' :: '0' :: dhi :: dlo :: xs) =
      (parseStrBody xs).map fun p =>
        (Char.ofNat (((0 * 16 + 0) * 16 + nhi) * 16 + nlo) :: p.1, p.2) := by
  have h0 : hexVal '0' = some 0 := by decide
  rw [parseStrBody.eq_def]; simp [h0, hhi, hlo]

lemma parseStrBody_escList (s rest : List Char) :
    parseStrBody (escList s ++ '"' :: rest) = some (s, rest) := by
  induction s with
  | nil => simpa [escList] using parseStrBody_quote rest
  | cons c cs ih =>
    by_cases h1 : c = '"'
    · subst h1
      simp [escList, escChar, parseStrBody_esc_quote, ih]
    · by_cases h2 : c = '\\'
      · subst h2
        simp [escList, escChar, parseStrBody_esc_back, ih]
      · by_cases h3 : c.toNat < 32
        · have hv1 : hexVal (escChar.hexDig (c.toNat / 16)) = some (c.toNat / 16) :=
            hexVal_hexDig _ (by omega)
          have hv2 : hexVal (escChar.hexDig (c.toNat % 16)) = some (c.toNat % 16) :=
            hexVal_hexDig _ (Nat.mod_lt _ (by omega))
          have harith : ((0 * 16 + 0) * 16 + c.toNat / 16) * 16 + c.toNat % 16 = c.toNat := by
            omega
          simp only [escList, escChar, h1, h2, h3, ite_true, ite_false, if_neg, if_pos,
            List.cons_append, List.append_assoc, List.nil_append]
          rw [parseStrBody_esc_u _ _ _ _ hv1 hv2, ih]
          have hc : c.toNat / 16 * 16 + c.toNat % 16 = c.toNat := by omega
          simp [harith, hc, Char.ofNat_toNat]
        · simp [escList, escChar, h1, h2, h3, parseStrBody_plain, ih]

lemma renderJson_head (j : Json) :
    ∃ c tl, renderJson j = c :: tl ∧ isWs c = false ∧ c ≠ ']' ∧ c ≠ rbraceC ∧ c ≠ ',' := by
  cases j with
  | null => exact ⟨'n', _, rfl, by decide, by decide, by decide, by decide⟩
  | bool b =>
    cases b with
    | true => exact ⟨'t', _, rfl, by decide, by decide, by decide, by decide⟩
    | false => exact ⟨'f', _, rfl, by decide, by decide, by decide, by decide⟩
  | str s => exact ⟨'"', _, rfl, by decide, by decide, by decide, by decide⟩
  | arr es => exact ⟨'[', _, rfl, by decide, by decide, by decide, by decide⟩
  | obj ms => exact ⟨lbraceC, _, rfl, by decide, by decide, by decide, by decide⟩

lemma skipWs_render (j : Json) (x : List Char) :
    skipWs (renderJson j ++ x) = renderJson j ++ x := by
  obtain ⟨c, tl, hr, hws, -, -, -⟩ := renderJson_head j
  rw [hr, List.cons_append, skipWs_cons_not _ _ hws]

lemma skipWs_elems (es : List Json) (rest : List Char) :
    skipWs (renderElems es ++ ']' :: rest) = renderElems es ++ ']' :: rest := by
  cases es with
  | nil => simp [renderElems, skipWs, isWs]
  | cons e es =>
    rw [renderElems, List.append_assoc]
    exact skipWs_render e _

lemma skipWs_mems (ms : List (String × Json)) (rest : List Char) :
    skipWs (renderMems ms ++ rbraceC :: rest) = renderMems ms ++ rbraceC :: rest := by
  cases ms with
  | nil =>
    rw [renderMems, List.nil_append]
    exact skipWs_cons_not _ _ (by decide)
  | cons m ms =>
    obtain ⟨k, v⟩ := m
    rw [renderMems, renderStr, List.cons_append]
    exact skipWs_cons_not _ _ (by decide)

lemma parseVal_succ (f : Nat) (cs : List Char) :
    parseVal (f + 1) cs =
      match skipWs cs with
      | [] => none
      | c :: rest =>
        if c = 'n' then
          match rest with
          | 'u' :: 'l' :: 'l' :: r => some (.null, r)
          | _ => none
        else if c = 't' then
          match rest with
          | 'r' :: 'u' :: 'e' :: r => some (.bool true, r)
          | _ => none
        else if c = 'f' then
          match rest with
          | 'a' :: 'l' :: 's' :: 'e' :: r => some (.bool false, r)
          | _ => none
        else if c = '"' then
          match parseStrBody rest with
          | some (s, r) => some (.str (String.mk s), r)
          | none => none
        else if c = '[' then parseArr f (skipWs rest)
        else if c = lbraceC then parseObj f (skipWs rest)
        else none := rfl

lemma parseArr_succ (f : Nat) (cs : List Char) :
    parseArr (f + 1) cs =
      match cs with
      | [] => none
      | c :: rest =>
        if c = ']' then some (.arr [], rest)
        else
          match parseVal f (c :: rest) with
          | some (j, r) =>
            match parseArrSep f r with
            | some (js, r') => some (.arr (j :: js), r')
            | none => none
          | none => none := rfl

lemma parseArrSep_succ (f : Nat) (cs : List Char) :
    parseArrSep (f + 1) cs =
      match skipWs cs with
      | [] => none
      | c :: rest =>
        if c = ']' then some ([], rest)
        else if c = ',' then
          match parseVal f rest with
          | some (j, r) =>
            match parseArrSep f r with
            | some (js, r') => some (j :: js, r')
            | none => none
          | none => none
        else none := rfl

lemma parseObj_succ (f : Nat) (cs : List Char) :
    parseObj (f + 1) cs =
      match cs with
      | [] => none
      | c :: rest =>
        if c = rbraceC then some (.obj [], rest)
        else
          match parseMem f (c :: rest) with
          | some (m, r) =>
            match parseObjSep f r with
            | some (ms, r') => some (.obj (m :: ms), r')
            | none => none
          | none => none := rfl

lemma parseMem_succ (f : Nat) (cs : List Char) :
    parseMem (f + 1) cs =
      match cs with
      | [] => none
      | c :: rest =>
        if c = '"' then
          match parseStrBody rest with
          | some (k, r) =>
            match skipWs r with
            | c2 :: r2 =>
              if c2 = ':' then
                match parseVal f r2 with
                | some (v, r3) => some ((String.mk k, v), r3)
                | none => none
              else none
            | [] => none
          | none => none
        else none := rfl

lemma parseObjSep_succ (f : Nat) (cs : List Char) :
    parseObjSep (f + 1) cs =
      match skipWs cs with
      | [] => none
      | c :: rest =>
        if c = rbraceC then some ([], rest)
        else if c = ',' then
          match parseMem f (skipWs rest) with
          | some (m, r) =>
            match parseObjSep f r with
            | some (ms, r') => some (m :: ms, r')
            | none => none
          | none => none
        else none := rfl

lemma parseVal_cons (f : Nat) (c : Char) (rest : List Char) (hws : isWs c = false) :
    parseVal (f + 1) (c :: rest) =
      (if c = 'n' then
        match rest with
        | 'u' :: 'l' :: 'l' :: r => some (.null, r)
        | _ => none
      else if c = 't' then
        match rest with
        | 'r' :: 'u' :: 'e' :: r => some (.bool true, r)
        | _ => none
      else if c = 'f' then
        match rest with
        | 'a' :: 'l' :: 's' :: 'e' :: r => some (.bool false, r)
        | _ => none
      else if c = '"' then
        match parseStrBody rest with
        | some (s, r) => some (.str (String.mk s), r)
        | none => none
      else if c = '[' then parseArr f (skipWs rest)
      else if c = lbraceC then parseObj f (skipWs rest)
      else none) := by
  rw [parseVal_succ, skipWs_cons_not _ _ hws]

lemma parseArr_cons (f : Nat) (c : Char) (rest : List Char) :
    parseArr (f + 1) (c :: rest) =
      (if c = ']' then some (.arr [], rest)
      else
        match parseVal f (c :: rest) with
        | some (j, r) =>
          match parseArrSep f r with
          | some (js, r') => some (.arr (j :: js), r')
          | none => none
        | none => none) := by
  rw [parseArr_succ]

lemma parseArrSep_cons (f : Nat) (c : Char) (rest : List Char) (hws : isWs c = false) :
    parseArrSep (f + 1) (c :: rest) =
      (if c = ']' then some ([], rest)
      else if c = ',' then
        match parseVal f rest with
        | some (j, r) =>
          match parseArrSep f r with
          | some (js, r') => some (j :: js, r')
          | none => none
        | none => none
      else none) := by
  rw [parseArrSep_succ, skipWs_cons_not _ _ hws]

lemma parseObj_cons (f : Nat) (c : Char) (rest : List Char) :
    parseObj (f + 1) (c :: rest) =
      (if c = rbraceC then some (.obj [], rest)
      else
        match parseMem f (c :: rest) with
        | some (m, r) =>
          match parseObjSep f r with
          | some (ms, r') => some (.obj (m :: ms), r')
          | none => none
        | none => none) := by
  rw [parseObj_succ]

lemma parseMem_cons (f : Nat) (c : Char) (rest : List Char) :
    parseMem (f + 1) (c :: rest) =
      (if c = '"' then
        match parseStrBody rest with
        | some (k, r) =>
          match skipWs r with
          | c2 :: r2 =>
            if c2 = ':' then
              match parseVal f r2 with
              | some (v, r3) => some ((String.mk k, v), r3)
              | none => none
            else none
          | [] => none
        | none => none
      else none) := by
  rw [parseMem_succ]

lemma parseObjSep_cons (f : Nat) (c : Char) (rest : List Char) (hws : isWs c = false) :
    parseObjSep (f + 1) (c :: rest) =
      (if c = rbraceC then some ([], rest)
      else if c = ',' then
        match parseMem f (skipWs rest) with
        | some (m, r) =>
          match parseObjSep f r with
          | some (ms, r') => some (m :: ms, r')
          | none => none
        | none => none
      else none) := by
  rw [parseObjSep_succ, skipWs_cons_not _ _ hws]

/-- The bundle of round-trip statements for the mutually recursive JSON
readers, indexed by the fuel. -/
def RTP (fuel : Nat) : Prop :=
  (∀ j rest, sizeJ j < fuel →
    parseVal fuel (renderJson j ++ rest) = some (j, rest)) ∧
  (∀ es rest, sizeElems es < fuel →
    parseArr fuel (renderElems es ++ ']' :: rest) = some (.arr es, rest)) ∧
  (∀ es rest, sizeElems es < fuel →
    parseArrSep fuel (renderElemsTail es ++ ']' :: rest) = some (es, rest)) ∧
  (∀ ms rest, sizeMems ms < fuel →
    parseObj fuel (renderMems ms ++ rbraceC :: rest) = some (.obj ms, rest)) ∧
  (∀ k v rest, sizeJ v + 1 < fuel →
    parseMem fuel (renderStr k ++ ':' :: (renderJson v ++ rest)) = some ((k, v), rest)) ∧
  (∀ ms rest, sizeMems ms < fuel →
    parseObjSep fuel (renderMemsTail ms ++ rbraceC :: rest) = some (ms, rest))

theorem rtpAll : ∀ fuel, RTP fuel := by
  intro fuel
  induction fuel with
  | zero =>
    refine ⟨?_, ?_, ?_, ?_, ?_, ?_⟩ <;> (intros; omega)
  | succ f IH =>
    obtain ⟨IHval, IHarr, IHarrSep, IHobj, IHmem, IHobjSep⟩ := IH
    refine ⟨?_, ?_, ?_, ?_, ?_, ?_⟩
    · -- parseVal
      intro j rest h
      cases j with
      | null =>
        rw [renderJson, List.cons_append, parseVal_cons _ _ _ (by decide)]
        simp
      | bool b =>
        cases b <;>
          (rw [renderJson, List.cons_append, parseVal_cons _ _ _ (by decide)]; simp)
      | str s =>
        rw [renderJson, renderStr, List.cons_append, parseVal_cons _ _ _ (by decide)]
        rw [if_neg (by decide), if_neg (by decide), if_neg (by decide), if_pos rfl]
        rw [List.append_assoc, List.singleton_append, parseStrBody_escList]
      | arr es =>
        rw [renderJson, List.cons_append, parseVal_cons _ _ _ (by decide)]
        rw [if_neg (by decide), if_neg (by decide), if_neg (by decide), if_neg (by decide),
          if_pos rfl]
        rw [List.append_assoc, List.singleton_append, skipWs_elems]
        rw [sizeJ] at h
        exact IHarr es rest (by omega)
      | obj ms =>
        rw [renderJson, List.cons_append, parseVal_cons _ _ _ (by decide)]
        rw [if_neg (by decide), if_neg (by decide), if_neg (by decide), if_neg (by decide),
          if_neg (by decide), if_pos rfl]
        rw [List.append_assoc, List.singleton_append, skipWs_mems]
        rw [sizeJ] at h
        exact IHobj ms rest (by omega)
    · -- parseArr
      intro es rest h
      cases es with
      | nil =>
        rw [renderElems, List.nil_append, parseArr_cons, if_pos rfl]
      | cons e es2 =>
        rw [renderElems, List.append_assoc]
        obtain ⟨c, tl, hr, hws, hrb, hob, hcm⟩ := renderJson_head e
        rw [hr, List.cons_append, parseArr_cons, if_neg hrb, ← List.cons_append, ← hr]
        rw [sizeElems] at h
        rw [IHval e _ (by omega)]
        simp only [IHarrSep es2 rest (by omega)]
    · -- parseArrSep
      intro es rest h
      cases es with
      | nil =>
        rw [renderElemsTail, List.nil_append, parseArrSep_cons _ _ _ (by decide), if_pos rfl]
      | cons e es2 =>
        rw [renderElemsTail, List.cons_append, parseArrSep_cons _ _ _ (by decide),
          List.append_assoc]
        rw [sizeElems] at h
        rw [if_neg (by decide : ¬(',' = ']')), if_pos rfl]
        rw [IHval e _ (by omega)]
        simp only [IHarrSep es2 rest (by omega)]
    · -- parseObj
      intro ms rest h
      cases ms with
      | nil =>
        rw [renderMems, List.nil_append, parseObj_cons, if_pos rfl]
      | cons m ms2 =>
        obtain ⟨k, v⟩ := m
        rw [renderMems, List.append_assoc, List.cons_append, List.append_assoc]
        rw [renderStr, List.cons_append]
        rw [parseObj_cons, if_neg (by decide : ¬('"' = rbraceC))]
        rw [← List.cons_append, ← renderStr]
        rw [sizeMems] at h
        rw [IHmem k v _ (by omega)]
        simp only [IHobjSep ms2 rest (by omega)]
    · -- parseMem
      intro k v rest h
      rw [renderStr, List.cons_append, parseMem_cons, if_pos rfl]
      rw [List.append_assoc, List.singleton_append, parseStrBody_escList]
      have hsk : skipWs (':' :: (renderJson v ++ rest)) = ':' :: (renderJson v ++ rest) :=
        skipWs_cons_not _ _ (by decide)
      simp only [hsk, if_pos rfl, IHval v rest (by omega)]
      simp
    · -- parseObjSep
      intro ms rest h
      cases ms with
      | nil =>
        rw [renderMemsTail, List.nil_append, parseObjSep_cons _ _ _ (by decide), if_pos rfl]
      | cons m ms2 =>
        obtain ⟨k, v⟩ := m
        rw [renderMemsTail, List.cons_append]
        rw [List.append_assoc, List.cons_append, List.append_assoc]
        rw [parseObjSep_cons _ _ _ (by decide)]
        rw [if_neg (by decide : ¬(',' = rbraceC)), if_pos rfl]
        have hsk : skipWs (renderStr k ++ (':' :: (renderJson v ++ (renderMemsTail ms2 ++ rbraceC :: rest)))) =
            renderStr k ++ (':' :: (renderJson v ++ (renderMemsTail ms2 ++ rbraceC :: rest))) := by
          rw [renderStr, List.cons_append]
          exact skipWs_cons_not _ _ (by decide)
        rw [hsk]
        rw [sizeMems] at h
        rw [IHmem k v _ (by omega)]
        simp only [IHobjSep ms2 rest (by omega)]

mutual

theorem sizeJ_lt_len : ∀ j : Json, sizeJ j < (renderJson j).length
  | .null => by
    simp only [sizeJ, renderJson, List.length_cons, List.length_nil]
    omega
  | .bool b => by
    cases b <;>
      (simp only [sizeJ, renderJson, List.length_cons, List.length_nil]; omega)
  | .str s => by
    simp only [sizeJ, renderJson, renderStr, List.length_cons, List.length_append,
      List.length_nil]
    omega
  | .arr es => by
    have h := sizeElems_le_len es
    simp only [sizeJ, renderJson, List.length_cons, List.length_append, List.length_nil]
    omega
  | .obj ms => by
    have h := sizeMems_le_len ms
    simp only [sizeJ, renderJson, List.length_cons, List.length_append, List.length_nil]
    omega

theorem sizeElems_le_len : ∀ es : List Json, sizeElems es ≤ (renderElems es).length
  | [] => by simp [sizeElems, renderElems]
  | j :: js => by
    have h1 := sizeJ_lt_len j
    have h2 := sizeElems_le_lenTail js
    simp only [sizeElems, renderElems, List.length_append]
    omega

theorem sizeElems_le_lenTail : ∀ es : List Json, sizeElems es ≤ (renderElemsTail es).length
  | [] => by simp [sizeElems, renderElemsTail]
  | j :: js => by
    have h1 := sizeJ_lt_len j
    have h2 := sizeElems_le_lenTail js
    simp only [sizeElems, renderElemsTail, List.length_cons, List.length_append]
    omega

theorem sizeMems_le_len : ∀ ms : List (String × Json), sizeMems ms ≤ (renderMems ms).length
  | [] => by simp [sizeMems, renderMems]
  | (k, v) :: ms => by
    have h1 := sizeJ_lt_len v
    have h2 := sizeMems_le_lenTail ms
    simp only [sizeMems, renderMems, renderStr, List.length_cons, List.length_append,
      List.length_nil]
    omega

theorem sizeMems_le_lenTail : ∀ ms : List (String × Json), sizeMems ms ≤ (renderMemsTail ms).length
  | [] => by simp [sizeMems, renderMemsTail]
  | (k, v) :: ms => by
    have h1 := sizeJ_lt_len v
    have h2 := sizeMems_le_lenTail ms
    simp only [sizeMems, renderMemsTail, renderStr, List.length_cons, List.length_append,
      List.length_nil]
    omega

end

/-- Modelled from the spec: the error taxonomy of `parse` (section 7 of the
spec; the crate's parse pipeline is `serde_json` driven by the derived
`Deserialize` impls, and the error type itself is not under `src/`).  The
`path` carried by `missingField` / `typeMismatch` is the offending field's
key.  `unknownVariant` belongs to the strict mode, which the crate's default
(and only modelled) policy never produces. -/
inductive ParseError where
  | syntaxErr (position : Nat)
  | missingField (path : String)
  | typeMismatch (path expected found : String)
  | unknownVariant (path : String)
deriving DecidableEq

/-- Modelled from the spec: the error taxonomy of the interop converter
(`interop` module, not under `src/`). -/
inductive InteropError where
  | multipleVulnerabilities
  | missingRequiredField (name : String)
deriving DecidableEq

/-- Decode a JSON text into a JSON value.  The fuel handed to `parseVal` is
one more than the input length, which `sizeJ_lt_len` shows is always enough
for a rendered value. -/
def parseText (s : String) : Except ParseError Json :=
  match parseVal (s.data.length + 1) s.data with
  | some (j, rest) => if skipWs rest = [] then .ok j else .error (.syntaxErr (s.data.length - rest.length))
  | none => .error (.syntaxErr 0)

theorem parseText_render (j : Json) : parseText (String.mk (renderJson j)) = .ok j := by
  have hlen := sizeJ_lt_len j
  have h := (rtpAll ((renderJson j).length + 1)).1 j [] (by omega)
  rw [List.append_nil] at h
  simp only [parseText]
  rw [h]
  simp [skipWs]

/-- First-occurrence lookup in a JSON object's member list, which is how the
derived serde deserializers consume object keys. -/
def lookupJ (k : String) : List (String × Json) → Option Json
  | [] => none
  | (k', v) :: rest => if k' = k then some v else lookupJ k rest

/-- Kind of a JSON value, for `typeMismatch` reports. -/
def jsonKind : Json → String
  | .null => "null"
  | .bool _ => "boolean"
  | .str _ => "string"
  | .arr _ => "array"
  | .obj _ => "object"

/-- A mandatory field: absent keys are a `missingField` error. -/
def reqField (k : String) (kvs : List (String × Json)) : Except ParseError Json :=
  match lookupJ k kvs with
  | some v => .ok v
  | none => .error (.missingField k)

/-- Collapse an explicit JSON `null` to an absent value: serde deserializes
both a missing key and a `null` value for an `Option` field to `None`. -/
def denull : Option Json → Option Json
  | none => none
  | some .null => none
  | some (.bool b) => some (.bool b)
  | some (.str s) => some (.str s)
  | some (.arr es) => some (.arr es)
  | some (.obj ms) => some (.obj ms)

/-- An optional field: missing key or explicit `null` both mean absent. -/
def optField (k : String) (kvs : List (String × Json)) : Option Json :=
  denull (lookupJ k kvs)

/-- Expect a JSON string. -/
def asString (path : String) : Json → Except ParseError String
  | .str s => .ok s
  | j => .error (.typeMismatch path "string" (jsonKind j))

/-- Expect a JSON array. -/
def asArr (path : String) : Json → Except ParseError (List Json)
  | .arr es => .ok es
  | j => .error (.typeMismatch path "array" (jsonKind j))

/-- Expect a JSON object. -/
def asObj (path : String) : Json → Except ParseError (List (String × Json))
  | .obj ms => .ok ms
  | j => .error (.typeMismatch path "object" (jsonKind j))

/-- Mandatory string field. -/
def reqStr (k : String) (kvs : List (String × Json)) : Except ParseError String :=
  match reqField k kvs with
  | .error e => .error e
  | .ok j => asString k j

/-- Optional string field. -/
def optStr (k : String) (kvs : List (String × Json)) : Except ParseError (Option String) :=
  match optField k kvs with
  | none => .ok none
  | some j =>
    match asString k j with
    | .error e => .error e
    | .ok s => .ok (some s)

/-- Optional field decoded by `f` when present. -/
def optWith {α : Type} (f : Json → Except ParseError α) (k : String)
    (kvs : List (String × Json)) : Except ParseError (Option α) :=
  match optField k kvs with
  | none => .ok none
  | some j =>
    match f j with
    | .error e => .error e
    | .ok a => .ok (some a)

/-- Decode every element of a list, failing on the first error. -/
def mapExcept {α : Type} (f : Json → Except ParseError α) : List Json → Except ParseError (List α)
  | [] => .ok []
  | j :: js =>
    match f j with
    | .error e => .error e
    | .ok a =>
      match mapExcept f js with
      | .error e => .error e
      | .ok as => .ok (a :: as)

/-- Decode a JSON array of strings. -/
def decodeStrList (path : String) (j : Json) : Except ParseError (List String) :=
  match asArr path j with
  | .error e => .error e
  | .ok es => mapExcept (asString path) es

/-- Modelled from the spec: document category codes (the `definitions` module
of the crate is not under `src/`).  A closed set of known variants plus the
catch-all arm that losslessly preserves unrecognized text (spec sections 4.1
and 9). -/
inductive DocumentCategory where
  | csaf_base
  | csaf_security_advisory
  | csaf_vex
  | unrecognized (text : String)
deriving DecidableEq

/-- The canonical text of each known document category. -/
def knownDocumentCategories : List String :=
  ["csaf_base", "csaf_security_advisory", "csaf_vex"]

/-- Construction from external text: known text yields the closed variant,
anything else is preserved in the catch-all arm (default, non-strict mode). -/
def DocumentCategory.ofText (s : String) : DocumentCategory :=
  if s = "csaf_base" then .csaf_base
  else if s = "csaf_security_advisory" then .csaf_security_advisory
  else if s = "csaf_vex" then .csaf_vex
  else .unrecognized s

/-- The stable round-trip text representation. -/
def DocumentCategory.toText : DocumentCategory → String
  | .csaf_base => "csaf_base"
  | .csaf_security_advisory => "csaf_security_advisory"
  | .csaf_vex => "csaf_vex"
  | .unrecognized s => s

/-- A value is canonical when its catch-all arm does not spell a known
variant; every value produced by `ofText` is canonical. -/
def DocumentCategory.canonical : DocumentCategory → Bool
  | .unrecognized s => !(knownDocumentCategories.contains s)
  | _ => true

/-- Modelled from the spec: publisher category codes. -/
inductive PublisherCategory where
  | coordinator
  | discoverer
  | other
  | translator
  | user
  | vendor
  | unrecognized (text : String)
deriving DecidableEq

/-- The canonical text of each known publisher category. -/
def knownPublisherCategories : List String :=
  ["coordinator", "discoverer", "other", "translator", "user", "vendor"]

/-- Construction from external text, catch-all for unknown text. -/
def PublisherCategory.ofText (s : String) : PublisherCategory :=
  if s = "coordinator" then .coordinator
  else if s = "discoverer" then .discoverer
  else if s = "other" then .other
  else if s = "translator" then .translator
  else if s = "user" then .user
  else if s = "vendor" then .vendor
  else .unrecognized s

/-- The stable round-trip text representation. -/
def PublisherCategory.toText : PublisherCategory → String
  | .coordinator => "coordinator"
  | .discoverer => "discoverer"
  | .other => "other"
  | .translator => "translator"
  | .user => "user"
  | .vendor => "vendor"
  | .unrecognized s => s

/-- Canonicity of the catch-all arm. -/
def PublisherCategory.canonical : PublisherCategory → Bool
  | .unrecognized s => !(knownPublisherCategories.contains s)
  | _ => true

/-- Modelled from the spec: tracking status codes.  The interop converter
writes the text `withdrawn` through the catch-all arm when the minimal
advisory carries a withdrawal date (spec section 4.4). -/
inductive TrackingStatus where
  | draft
  | final
  | interim
  | unrecognized (text : String)
deriving DecidableEq

/-- The canonical text of each known tracking status. -/
def knownTrackingStatuses : List String := ["draft", "final", "interim"]

/-- Construction from external text, catch-all for unknown text. -/
def TrackingStatus.ofText (s : String) : TrackingStatus :=
  if s = "draft" then .draft
  else if s = "final" then .final
  else if s = "interim" then .interim
  else .unrecognized s

/-- The stable round-trip text representation. -/
def TrackingStatus.toText : TrackingStatus → String
  | .draft => "draft"
  | .final => "final"
  | .interim => "interim"
  | .unrecognized s => s

/-- Canonicity of the catch-all arm. -/
def TrackingStatus.canonical : TrackingStatus → Bool
  | .unrecognized s => !(knownTrackingStatuses.contains s)
  | _ => true

/-- Modelled from the spec: remediation category codes. -/
inductive RemediationCategory where
  | workaround
  | mitigation
  | vendor_fix
  | no_fix_planned
  | none_available
  | unrecognized (text : String)
deriving DecidableEq

/-- The canonical text of each known remediation category. -/
def knownRemediationCategories : List String :=
  ["workaround", "mitigation", "vendor_fix", "no_fix_planned", "none_available"]

/-- Construction from external text, catch-all for unknown text. -/
def RemediationCategory.ofText (s : String) : RemediationCategory :=
  if s = "workaround" then .workaround
  else if s = "mitigation" then .mitigation
  else if s = "vendor_fix" then .vendor_fix
  else if s = "no_fix_planned" then .no_fix_planned
  else if s = "none_available" then .none_available
  else .unrecognized s

/-- The stable round-trip text representation. -/
def RemediationCategory.toText : RemediationCategory → String
  | .workaround => "workaround"
  | .mitigation => "mitigation"
  | .vendor_fix => "vendor_fix"
  | .no_fix_planned => "no_fix_planned"
  | .none_available => "none_available"
  | .unrecognized s => s

/-- Canonicity of the catch-all arm. -/
def RemediationCategory.canonical : RemediationCategory → Bool
  | .unrecognized s => !(knownRemediationCategories.contains s)
  | _ => true

/-- Modelled from the spec: one entry of `tracking.revision_history` (the
`document` module is not under `src/`). -/
structure Revision where
  date : String
  number : String
  summary : String
deriving DecidableEq

/-- Modelled from the spec: the document publisher.  The JSON key of the
`nspace` field is `namespace` (a reserved word in Lean). -/
structure Publisher where
  category : PublisherCategory
  name : String
  nspace : String
deriving DecidableEq

/-- Modelled from the spec: the `tracking` record of a document, owning the
ordered `revision_history` (no implicit re-sort on deserialize). -/
structure Tracking where
  current_release_date : String
  id : String
  initial_release_date : String
  revision_history : List Revision
  status : TrackingStatus
  version : String
deriving DecidableEq

/-- Modelled from the spec: the mandatory document metadata with one
representative optional field (`lang`). -/
structure Document where
  category : DocumentCategory
  csaf_version : String
  publisher : Publisher
  title : String
  tracking : Tracking
  lang : Option String
deriving DecidableEq

/-- Modelled from the spec: a terminal product name in the branch tree. -/
structure FullProductName where
  name : String
  product_id : String
deriving DecidableEq

/-- Modelled from the spec: one node of the product branch forest (the
`product_tree` module is not under `src/`): a strict tree, each node owning
its children, terminal nodes carrying a `FullProductName`. -/
inductive Branch where
  | mk (name : String) (category : String) (branches : Option (List Branch))
      (product : Option FullProductName)

/-- The name of a branch node. -/
def Branch.name : Branch → String
  | .mk n _ _ _ => n

/-- The category of a branch node. -/
def Branch.category : Branch → String
  | .mk _ c _ _ => c

/-- The child branches of a branch node. -/
def Branch.branches : Branch → Option (List Branch)
  | .mk _ _ b _ => b

/-- The terminal product of a branch node. -/
def Branch.product : Branch → Option FullProductName
  | .mk _ _ _ p => p

/-- Modelled from the spec: a flat relationship record referencing products
by opaque identifier strings. -/
structure Relationship where
  category : String
  product_reference : String
  relates_to_product_reference : String
deriving DecidableEq

/-- Modelled from the spec: the optional product taxonomy. -/
structure ProductTree where
  branches : Option (List Branch)
  relationships : Option (List Relationship)

/-- Modelled from the spec: the per-status product identifier sets of a
vulnerability (two representative status categories). -/
structure ProductStatus where
  fixed : Option (List String)
  known_affected : Option (List String)
deriving DecidableEq

/-- Modelled from the spec: one remediation, tied to a category, affected
product identifiers and an optional date. -/
structure Remediation where
  category : RemediationCategory
  details : Option String
  date : Option String
  product_ids : Option (List String)
deriving DecidableEq

/-- Modelled from the spec: one score entry tied to a set of product
identifiers; `severity` is the modelled stand-in for the severity the interop
converter recovers from the first available score (spec section 4.4). -/
structure Score where
  products : List String
  severity : Option String
deriving DecidableEq

/-- Modelled from the spec: one vulnerability entry (the `vulnerability`
module is not under `src/`). -/
structure Vulnerability where
  cve : Option String
  title : Option String
  product_status : Option ProductStatus
  remediations : Option (List Remediation)
  scores : Option (List Score)
deriving DecidableEq

/-- Top level CSAF structure definition, from `src/lib.rs`: mandatory
`document`, optional `product_tree` and `vulnerabilities`; the
`skip_serializing_none` attribute makes every absent optional field an absent
key on serialization. -/
structure Csaf where
  document : Document
  product_tree : Option ProductTree
  vulnerabilities : Option (List Vulnerability)

/-- One member when the optional field is present, nothing when absent: the
embedding of serde's `skip_serializing_if = Option::is_none` emission. -/
def optPair {α : Type} (k : String) (f : α → Json) : Option α → List (String × Json)
  | none => []
  | some a => [(k, f a)]

/-- Encode a list of strings. -/
def strListToJson (l : List String) : Json := .arr (l.map .str)

/-- Encode one revision history entry. -/
def Revision.toJson (r : Revision) : Json :=
  .obj [("date", .str r.date), ("number", .str r.number), ("summary", .str r.summary)]

/-- Encode the publisher. -/
def Publisher.toJson (p : Publisher) : Json :=
  .obj [("category", .str p.category.toText), ("name", .str p.name),
    ("namespace", .str p.nspace)]

/-- Encode the tracking record, fields in declared order. -/
def Tracking.toJson (t : Tracking) : Json :=
  .obj [("current_release_date", .str t.current_release_date),
    ("id", .str t.id),
    ("initial_release_date", .str t.initial_release_date),
    ("revision_history", .arr (t.revision_history.map Revision.toJson)),
    ("status", .str t.status.toText),
    ("version", .str t.version)]

/-- Encode the document; the absent `lang` emits no key. -/
def Document.toJson (d : Document) : Json :=
  .obj ([("category", .str d.category.toText),
    ("csaf_version", .str d.csaf_version),
    ("publisher", d.publisher.toJson),
    ("title", .str d.title),
    ("tracking", d.tracking.toJson)] ++ optPair "lang" Json.str d.lang)

/-- Encode a terminal product name. -/
def FullProductName.toJson (f : FullProductName) : Json :=
  .obj [("name", .str f.name), ("product_id", .str f.product_id)]

mutual

/-- Encode one branch node; recursion mirrors the owned branch tree. -/
def Branch.toJson : Branch → Json
  | .mk name category branches product =>
    .obj ([("name", .str name), ("category", .str category)] ++
      (match branches with
       | none => []
       | some bs => [("branches", .arr (Branch.listToJson bs))]) ++
      optPair "product" FullProductName.toJson product)

/-- Encode a list of branch nodes. -/
def Branch.listToJson : List Branch → List Json
  | [] => []
  | b :: bs => Branch.toJson b :: Branch.listToJson bs

end

/-- Encode a relationship record. -/
def Relationship.toJson (r : Relationship) : Json :=
  .obj [("category", .str r.category),
    ("product_reference", .str r.product_reference),
    ("relates_to_product_reference", .str r.relates_to_product_reference)]

/-- Encode the product tree; absent collections emit no key. -/
def ProductTree.toJson (pt : ProductTree) : Json :=
  .obj (optPair "branches" (fun bs => .arr (Branch.listToJson bs)) pt.branches ++
    optPair "relationships" (fun rs => .arr (rs.map Relationship.toJson)) pt.relationships)

/-- Encode the product status sets. -/
def ProductStatus.toJson (ps : ProductStatus) : Json :=
  .obj (optPair "fixed" strListToJson ps.fixed ++
    optPair "known_affected" strListToJson ps.known_affected)

/-- Encode one remediation. -/
def Remediation.toJson (r : Remediation) : Json :=
  .obj ([("category", .str r.category.toText)] ++
    optPair "details" Json.str r.details ++
    optPair "date" Json.str r.date ++
    optPair "product_ids" strListToJson r.product_ids)

/-- Encode one score entry. -/
def Score.toJson (s : Score) : Json :=
  .obj ([("products", strListToJson s.products)] ++
    optPair "severity" Json.str s.severity)

/-- Encode one vulnerability; every absent optional field emits no key. -/
def Vulnerability.toJson (v : Vulnerability) : Json :=
  .obj (optPair "cve" Json.str v.cve ++
    optPair "title" Json.str v.title ++
    optPair "product_status" ProductStatus.toJson v.product_status ++
    optPair "remediations" (fun l => .arr (l.map Remediation.toJson)) v.remediations ++
    optPair "scores" (fun l => .arr (l.map Score.toJson)) v.scores)

/-- Encode the top level structure: `document` always, the two optional
fields only when present (the `skip_serializing_none` contract of
`src/lib.rs`). -/
def Csaf.toJson (c : Csaf) : Json :=
  .obj ([("document", c.document.toJson)] ++
    optPair "product_tree" ProductTree.toJson c.product_tree ++
    optPair "vulnerabilities" (fun l => .arr (l.map Vulnerability.toJson)) c.vulnerabilities)

/-- `serialize(&Csaf) -> Bytes`: deterministic encoding of a value to JSON
text (spec section 4.3). -/
def serialize (c : Csaf) : String :=
  String.mk (renderJson c.toJson)

/-- A mandatory field decoded by `f`. -/
def reqWith {α : Type} (f : Json → Except ParseError α) (k : String)
    (kvs : List (String × Json)) : Except ParseError α :=
  match lookupJ k kvs with
  | none => .error (.missingField k)
  | some j => f j

/-- Decode a document category (default mode: any text is accepted). -/
def decodeDocumentCategory (path : String) (j : Json) : Except ParseError DocumentCategory :=
  match asString path j with
  | .error e => .error e
  | .ok s => .ok (DocumentCategory.ofText s)

/-- Decode a publisher category. -/
def decodePublisherCategory (path : String) (j : Json) : Except ParseError PublisherCategory :=
  match asString path j with
  | .error e => .error e
  | .ok s => .ok (PublisherCategory.ofText s)

/-- Decode a tracking status. -/
def decodeTrackingStatus (path : String) (j : Json) : Except ParseError TrackingStatus :=
  match asString path j with
  | .error e => .error e
  | .ok s => .ok (TrackingStatus.ofText s)

/-- Decode a remediation category. -/
def decodeRemediationCategory (path : String) (j : Json) : Except ParseError RemediationCategory :=
  match asString path j with
  | .error e => .error e
  | .ok s => .ok (RemediationCategory.ofText s)

/-- Decode one revision history entry. -/
def decodeRevision (j : Json) : Except ParseError Revision :=
  match asObj "revision" j with
  | .error e => .error e
  | .ok kvs =>
    match reqStr "date" kvs with
    | .error e => .error e
    | .ok date =>
      match reqStr "number" kvs with
      | .error e => .error e
      | .ok number =>
        match reqStr "summary" kvs with
        | .error e => .error e
        | .ok summary => .ok ⟨date, number, summary⟩

/-- Decode the revision history array. -/
def decodeRevList (j : Json) : Except ParseError (List Revision) :=
  match asArr "revision_history" j with
  | .error e => .error e
  | .ok es => mapExcept decodeRevision es

/-- Decode the publisher. -/
def decodePublisher (j : Json) : Except ParseError Publisher :=
  match asObj "publisher" j with
  | .error e => .error e
  | .ok kvs =>
    match reqWith (decodePublisherCategory "category") "category" kvs with
    | .error e => .error e
    | .ok cat =>
      match reqStr "name" kvs with
      | .error e => .error e
      | .ok name =>
        match reqStr "namespace" kvs with
        | .error e => .error e
        | .ok ns => .ok ⟨cat, name, ns⟩

/-- Decode the tracking record. -/
def decodeTracking (j : Json) : Except ParseError Tracking :=
  match asObj "tracking" j with
  | .error e => .error e
  | .ok kvs =>
    match reqStr "current_release_date" kvs with
    | .error e => .error e
    | .ok crd =>
      match reqStr "id" kvs with
      | .error e => .error e
      | .ok id =>
        match reqStr "initial_release_date" kvs with
        | .error e => .error e
        | .ok ird =>
          match reqWith decodeRevList "revision_history" kvs with
          | .error e => .error e
          | .ok rh =>
            match reqWith (decodeTrackingStatus "status") "status" kvs with
            | .error e => .error e
            | .ok st =>
              match reqStr "version" kvs with
              | .error e => .error e
              | .ok ver => .ok ⟨crd, id, ird, rh, st, ver⟩

/-- Decode the document record. -/
def decodeDocument (j : Json) : Except ParseError Document :=
  match asObj "document" j with
  | .error e => .error e
  | .ok kvs =>
    match reqWith (decodeDocumentCategory "category") "category" kvs with
    | .error e => .error e
    | .ok cat =>
      match reqStr "csaf_version" kvs with
      | .error e => .error e
      | .ok ver =>
        match reqWith decodePublisher "publisher" kvs with
        | .error e => .error e
        | .ok pub =>
          match reqStr "title" kvs with
          | .error e => .error e
          | .ok title =>
            match reqWith decodeTracking "tracking" kvs with
            | .error e => .error e
            | .ok tr =>
              match optStr "lang" kvs with
              | .error e => .error e
              | .ok lang => .ok ⟨cat, ver, pub, title, tr, lang⟩

/-- Decode a terminal product name. -/
def decodeFullProductName (j : Json) : Except ParseError FullProductName :=
  match asObj "product" j with
  | .error e => .error e
  | .ok kvs =>
    match reqStr "name" kvs with
    | .error e => .error e
    | .ok name =>
      match reqStr "product_id" kvs with
      | .error e => .error e
      | .ok pid => .ok ⟨name, pid⟩

mutual

/-- Decode one branch node.  The fuel only serves structural termination of
the recursion through the owned branch tree; `decodeCsaf` supplies the size
of the whole document, which always suffices (`decodeBranch_fuel`). -/
def decodeBranch : Nat → Json → Except ParseError Branch
  | 0, _ => .error (.typeMismatch "branches" "branch" "fuel")
  | fuel + 1, j =>
    match asObj "branch" j with
    | .error e => .error e
    | .ok kvs =>
      match reqStr "name" kvs with
      | .error e => .error e
      | .ok name =>
        match reqStr "category" kvs with
        | .error e => .error e
        | .ok category =>
          match optWith (decodeBranchList fuel) "branches" kvs with
          | .error e => .error e
          | .ok branches =>
            match optWith decodeFullProductName "product" kvs with
            | .error e => .error e
            | .ok product => .ok (.mk name category branches product)

/-- Decode a JSON array of branch nodes. -/
def decodeBranchList : Nat → Json → Except ParseError (List Branch)
  | 0, _ => .error (.typeMismatch "branches" "array" "fuel")
  | fuel + 1, j =>
    match asArr "branches" j with
    | .error e => .error e
    | .ok es => decodeBranchElems fuel es

/-- Decode the elements of a branch array. -/
def decodeBranchElems : Nat → List Json → Except ParseError (List Branch)
  | _, [] => .ok []
  | 0, _ :: _ => .error (.typeMismatch "branches" "branch" "fuel")
  | fuel + 1, j :: js =>
    match decodeBranch fuel j with
    | .error e => .error e
    | .ok b =>
      match decodeBranchElems fuel js with
      | .error e => .error e
      | .ok bs => .ok (b :: bs)

end

/-- Decode a relationship record. -/
def decodeRelationship (j : Json) : Except ParseError Relationship :=
  match asObj "relationship" j with
  | .error e => .error e
  | .ok kvs =>
    match reqStr "category" kvs with
    | .error e => .error e
    | .ok cat =>
      match reqStr "product_reference" kvs with
      | .error e => .error e
      | .ok pr =>
        match reqStr "relates_to_product_reference" kvs with
        | .error e => .error e
        | .ok rpr => .ok ⟨cat, pr, rpr⟩

/-- Decode the relationships array. -/
def decodeRelList (j : Json) : Except ParseError (List Relationship) :=
  match asArr "relationships" j with
  | .error e => .error e
  | .ok es => mapExcept decodeRelationship es

/-- Decode the product tree. -/
def decodeProductTree (fuel : Nat) (j : Json) : Except ParseError ProductTree :=
  match asObj "product_tree" j with
  | .error e => .error e
  | .ok kvs =>
    match optWith (decodeBranchList fuel) "branches" kvs with
    | .error e => .error e
    | .ok branches =>
      match optWith decodeRelList "relationships" kvs with
      | .error e => .error e
      | .ok rels => .ok ⟨branches, rels⟩

/-- Decode the product status sets. -/
def decodeProductStatus (j : Json) : Except ParseError ProductStatus :=
  match asObj "product_status" j with
  | .error e => .error e
  | .ok kvs =>
    match optWith (decodeStrList "fixed") "fixed" kvs with
    | .error e => .error e
    | .ok fixed =>
      match optWith (decodeStrList "known_affected") "known_affected" kvs with
      | .error e => .error e
      | .ok ka => .ok ⟨fixed, ka⟩

/-- Decode one remediation. -/
def decodeRemediation (j : Json) : Except ParseError Remediation :=
  match asObj "remediation" j with
  | .error e => .error e
  | .ok kvs =>
    match reqWith (decodeRemediationCategory "category") "category" kvs with
    | .error e => .error e
    | .ok cat =>
      match optStr "details" kvs with
      | .error e => .error e
      | .ok details =>
        match optStr "date" kvs with
        | .error e => .error e
        | .ok date =>
          match optWith (decodeStrList "product_ids") "product_ids" kvs with
          | .error e => .error e
          | .ok pids => .ok ⟨cat, details, date, pids⟩

/-- Decode the remediations array. -/
def decodeRemList (j : Json) : Except ParseError (List Remediation) :=
  match asArr "remediations" j with
  | .error e => .error e
  | .ok es => mapExcept decodeRemediation es

/-- Decode one score entry. -/
def decodeScore (j : Json) : Except ParseError Score :=
  match asObj "score" j with
  | .error e => .error e
  | .ok kvs =>
    match reqWith (decodeStrList "products") "products" kvs with
    | .error e => .error e
    | .ok prods =>
      match optStr "severity" kvs with
      | .error e => .error e
      | .ok sev => .ok ⟨prods, sev⟩

/-- Decode the scores array. -/
def decodeScoreList (j : Json) : Except ParseError (List Score) :=
  match asArr "scores" j with
  | .error e => .error e
  | .ok es => mapExcept decodeScore es

/-- Decode one vulnerability entry. -/
def decodeVulnerability (j : Json) : Except ParseError Vulnerability :=
  match asObj "vulnerability" j with
  | .error e => .error e
  | .ok kvs =>
    match optStr "cve" kvs with
    | .error e => .error e
    | .ok cve =>
      match optStr "title" kvs with
      | .error e => .error e
      | .ok title =>
        match optWith decodeProductStatus "product_status" kvs with
        | .error e => .error e
        | .ok ps =>
          match optWith decodeRemList "remediations" kvs with
          | .error e => .error e
          | .ok rems =>
            match optWith decodeScoreList "scores" kvs with
            | .error e => .error e
            | .ok scores => .ok ⟨cve, title, ps, rems, scores⟩

/-- Decode the vulnerabilities array. -/
def decodeVulnList (j : Json) : Except ParseError (List Vulnerability) :=
  match asArr "vulnerabilities" j with
  | .error e => .error e
  | .ok es => mapExcept decodeVulnerability es

/-- Decode a whole document value: unknown keys are ignored (every lookup is
by a modelled key), a missing `document` is a `missingField` error. -/
def decodeCsaf (j : Json) : Except ParseError Csaf :=
  match asObj "csaf" j with
  | .error e => .error e
  | .ok kvs =>
    match reqWith decodeDocument "document" kvs with
    | .error e => .error e
    | .ok doc =>
      match optWith (decodeProductTree (sizeJ j)) "product_tree" kvs with
      | .error e => .error e
      | .ok pt =>
        match optWith decodeVulnList "vulnerabilities" kvs with
        | .error e => .error e
        | .ok vulns => .ok ⟨doc, pt, vulns⟩

/-- `parse(bytes) -> Result<Csaf, ParseError>`: JSON text decoding followed by
the structural decoding of the model; all-or-nothing (spec sections 4.3 and
7). -/
def parse (s : String) : Except ParseError Csaf :=
  match parseText s with
  | .error e => .error e
  | .ok j => decodeCsaf j

lemma lookupJ_append_left {k : String} {xs : List (String × Json)} {v : Json}
    (ys : List (String × Json)) (h : lookupJ k xs = some v) :
    lookupJ k (xs ++ ys) = some v := by
  induction xs with
  | nil => simp [lookupJ] at h
  | cons p rest ih =>
    obtain ⟨k', w⟩ := p
    by_cases hk : k' = k
    · subst hk
      simp [lookupJ] at h ⊢
      simpa using h
    · simp [lookupJ, hk] at h ⊢
      exact ih h

lemma lookupJ_append_right {k : String} {xs : List (String × Json)}
    (ys : List (String × Json)) (h : lookupJ k xs = none) :
    lookupJ k (xs ++ ys) = lookupJ k ys := by
  induction xs with
  | nil => simp
  | cons p rest ih =>
    obtain ⟨k', w⟩ := p
    by_cases hk : k' = k
    · subst hk
      simp [lookupJ] at h
    · simp [lookupJ, hk] at h ⊢
      exact ih h

lemma lookupJ_optPair_self {α : Type} (k : String) (f : α → Json) (o : Option α) :
    lookupJ k (optPair k f o) = o.map f := by
  cases o <;> simp [optPair, lookupJ]

lemma lookupJ_optPair_ne {α : Type} {k k' : String} (f : α → Json) (o : Option α)
    (h : k' ≠ k) : lookupJ k (optPair k' f o) = none := by
  cases o <;> simp [optPair, lookupJ, h]

lemma mapExcept_map {β : Type} (f : Json → Except ParseError β) (g : β → Json)
    (l : List β) (h : ∀ b ∈ l, f (g b) = .ok b) : mapExcept f (l.map g) = .ok l := by
  induction l with
  | nil => simp [mapExcept]
  | cons b bs ih =>
    have hb := h b (by simp)
    have hrest : ∀ x ∈ bs, f (g x) = .ok x := fun x hx => h x (by simp [hx])
    simp [mapExcept, hb, ih hrest]

lemma documentCategoryOfText_canonical (s : String) :
    (DocumentCategory.ofText s).canonical = true := by
  unfold DocumentCategory.ofText
  split_ifs <;> simp_all [DocumentCategory.canonical, knownDocumentCategories]

lemma documentCategoryOfText_toText (c : DocumentCategory) (h : c.canonical = true) :
    DocumentCategory.ofText c.toText = c := by
  cases c with
  | unrecognized s =>
    simp [DocumentCategory.canonical, knownDocumentCategories] at h
    simp [DocumentCategory.toText, DocumentCategory.ofText, h.1, h.2.1, h.2.2]
  | _ => rfl

lemma publisherCategoryOfText_canonical (s : String) :
    (PublisherCategory.ofText s).canonical = true := by
  unfold PublisherCategory.ofText
  split_ifs <;> simp_all [PublisherCategory.canonical, knownPublisherCategories]

lemma publisherCategoryOfText_toText (c : PublisherCategory) (h : c.canonical = true) :
    PublisherCategory.ofText c.toText = c := by
  cases c with
  | unrecognized s =>
    simp [PublisherCategory.canonical, knownPublisherCategories] at h
    obtain ⟨h1, h2, h3, h4, h5, h6⟩ := h
    simp [PublisherCategory.toText, PublisherCategory.ofText, h1, h2, h3, h4, h5, h6]
  | _ => rfl

lemma trackingStatusOfText_canonical (s : String) :
    (TrackingStatus.ofText s).canonical = true := by
  unfold TrackingStatus.ofText
  split_ifs <;> simp_all [TrackingStatus.canonical, knownTrackingStatuses]

lemma trackingStatusOfText_toText (c : TrackingStatus) (h : c.canonical = true) :
    TrackingStatus.ofText c.toText = c := by
  cases c with
  | unrecognized s =>
    simp [TrackingStatus.canonical, knownTrackingStatuses] at h
    simp [TrackingStatus.toText, TrackingStatus.ofText, h.1, h.2.1, h.2.2]
  | _ => rfl

lemma remediationCategoryOfText_canonical (s : String) :
    (RemediationCategory.ofText s).canonical = true := by
  unfold RemediationCategory.ofText
  split_ifs <;> simp_all [RemediationCategory.canonical, knownRemediationCategories]

lemma remediationCategoryOfText_toText (c : RemediationCategory) (h : c.canonical = true) :
    RemediationCategory.ofText c.toText = c := by
  cases c with
  | unrecognized s =>
    simp [RemediationCategory.canonical, knownRemediationCategories] at h
    obtain ⟨h1, h2, h3, h4, h5⟩ := h
    simp [RemediationCategory.toText, RemediationCategory.ofText, h1, h2, h3, h4, h5]
  | _ => rfl

/-- Canonicity of the enum-valued fields of a document. -/
def Document.canonical (d : Document) : Bool :=
  d.category.canonical && d.publisher.category.canonical && d.tracking.status.canonical

/-- Canonicity of the enum-valued field of a remediation. -/
def Remediation.canonical (r : Remediation) : Bool := r.category.canonical

/-- Canonicity of every enum-valued field inside a vulnerability. -/
def Vulnerability.canonical (v : Vulnerability) : Bool :=
  match v.remediations with
  | none => true
  | some l => l.all Remediation.canonical

/-- Canonicity of every catch-all enum arm inside a value: the invariant every
value constructible by `parse` satisfies, and exactly what the round trip
needs (an `unrecognized` arm spelling a known variant would re-parse to the
closed variant). -/
def Csaf.canonical (c : Csaf) : Bool :=
  c.document.canonical &&
    (match c.vulnerabilities with
     | none => true
     | some l => l.all Vulnerability.canonical)

lemma decodeRevision_toJson (r : Revision) : decodeRevision (Revision.toJson r) = .ok r := by
  simp [decodeRevision, Revision.toJson, asObj, reqStr, reqField, lookupJ, asString]

lemma decodePublisher_toJson (p : Publisher) (h : p.category.canonical = true) :
    decodePublisher (Publisher.toJson p) = .ok p := by
  simp [decodePublisher, Publisher.toJson, asObj, reqWith, reqStr, reqField, lookupJ,
    decodePublisherCategory, asString, publisherCategoryOfText_toText p.category h]

lemma decodeRevList_toJson (l : List Revision) :
    decodeRevList (.arr (l.map Revision.toJson)) = .ok l := by
  simp only [decodeRevList, asArr]
  exact mapExcept_map _ _ _ (fun b _ => decodeRevision_toJson b)

lemma decodeTracking_toJson (t : Tracking) (h : t.status.canonical = true) :
    decodeTracking (Tracking.toJson t) = .ok t := by
  simp [decodeTracking, Tracking.toJson, asObj, reqWith, reqStr, reqField, lookupJ,
    decodeRevList_toJson, decodeTrackingStatus, asString,
    trackingStatusOfText_toText t.status h]

lemma denull_none : denull none = none := rfl

lemma denull_some_str (s : String) : denull (some (.str s)) = some (.str s) := rfl

lemma denull_some_arr (es : List Json) : denull (some (.arr es)) = some (.arr es) := rfl

lemma denull_some_fpn (fp : FullProductName) :
    denull (some (FullProductName.toJson fp)) = some (FullProductName.toJson fp) := by
  simp [FullProductName.toJson, denull]

lemma denull_some_pt (pt : ProductTree) :
    denull (some (ProductTree.toJson pt)) = some (ProductTree.toJson pt) := by
  simp [ProductTree.toJson, denull]

lemma denull_some_ps (ps : ProductStatus) :
    denull (some (ProductStatus.toJson ps)) = some (ProductStatus.toJson ps) := by
  simp [ProductStatus.toJson, denull]

lemma decodeDocument_toJson (d : Document) (h : d.canonical = true) :
    decodeDocument (Document.toJson d) = .ok d := by
  simp only [Document.canonical, Bool.and_eq_true] at h
  obtain ⟨⟨hcat, hpub⟩, htr⟩ := h
  obtain ⟨cat, ver, pub, title, tr, lang⟩ := d
  simp only [] at hcat hpub htr
  cases lang <;>
    simp [decodeDocument, Document.toJson, asObj, reqWith, reqStr, reqField, optStr,
      optField, denull_none, denull_some_str, lookupJ, optPair, decodeDocumentCategory, asString,
      documentCategoryOfText_toText _ hcat, decodePublisher_toJson _ hpub,
      decodeTracking_toJson _ htr]

lemma decodeFullProductName_toJson (f : FullProductName) :
    decodeFullProductName (FullProductName.toJson f) = .ok f := by
  simp [decodeFullProductName, FullProductName.toJson, asObj, reqStr, reqField, lookupJ,
    asString]

/-- The bundle of encode-then-decode statements for the branch tree, indexed
by the fuel. -/
def BranchRT (fuel : Nat) : Prop :=
  (∀ b, sizeJ (Branch.toJson b) ≤ fuel → decodeBranch fuel (Branch.toJson b) = .ok b) ∧
  (∀ bs, sizeJ (.arr (Branch.listToJson bs)) ≤ fuel →
    decodeBranchList fuel (.arr (Branch.listToJson bs)) = .ok bs) ∧
  (∀ bs, sizeElems (Branch.listToJson bs) ≤ fuel →
    decodeBranchElems fuel (Branch.listToJson bs) = .ok bs)

theorem branchRTAll : ∀ fuel, BranchRT fuel := by
  intro fuel
  induction fuel with
  | zero =>
    refine ⟨?_, ?_, ?_⟩
    · intro b hb
      exfalso
      cases b with
      | mk n c obs op =>
        rw [Branch.toJson.eq_def, sizeJ] at hb
        omega
    · intro bs hb
      exfalso
      rw [sizeJ] at hb
      omega
    · intro bs hb
      cases bs with
      | nil => rfl
      | cons b bs =>
        exfalso
        rw [Branch.listToJson, sizeElems] at hb
        omega
  | succ f IH =>
    obtain ⟨IHb, IHl, IHe⟩ := IH
    refine ⟨?_, ?_, ?_⟩
    · intro b hb
      cases b with
      | mk n c obs op =>
        cases obs with
        | none =>
          cases op with
          | none =>
            simp [decodeBranch, Branch.toJson, optPair, asObj, reqStr, reqField, lookupJ,
              asString, optWith, optField, denull_none]
          | some fp =>
            simp [decodeBranch, Branch.toJson, optPair, asObj, reqStr, reqField, lookupJ,
              asString, optWith, optField, denull_none, denull_some_fpn,
              decodeFullProductName_toJson]
        | some bs =>
          have hsub : sizeJ (.arr (Branch.listToJson bs)) ≤ f := by
            rw [Branch.toJson.eq_def, sizeJ] at hb
            cases op <;>
              (simp only [optPair, sizeMems, sizeJ, List.cons_append, List.nil_append,
                List.append_nil] at hb ⊢; omega)
          have hl := IHl bs hsub
          cases op with
          | none =>
            simp [decodeBranch, Branch.toJson, optPair, asObj, reqStr, reqField, lookupJ,
              asString, optWith, optField, denull_none, denull_some_arr, hl]
          | some fp =>
            simp [decodeBranch, Branch.toJson, optPair, asObj, reqStr, reqField, lookupJ,
              asString, optWith, optField, denull_none, denull_some_arr, denull_some_fpn, hl,
              decodeFullProductName_toJson]
    · intro bs hb
      have hsub : sizeElems (Branch.listToJson bs) ≤ f := by
        simp [sizeJ] at hb
        omega
      simp [decodeBranchList, asArr, IHe bs hsub]
    · intro bs hb
      cases bs with
      | nil => rfl
      | cons b bs =>
        simp only [Branch.listToJson, sizeElems] at hb
        have h1 : sizeJ (Branch.toJson b) ≤ f := by omega
        have h2 : sizeElems (Branch.listToJson bs) ≤ f := by omega
        simp [decodeBranchElems, IHb b h1, IHe bs h2]

lemma denull_some_strList (l : List String) :
    denull (some (strListToJson l)) = some (strListToJson l) := by
  simp [strListToJson, denull]

lemma decodeStrList_toJson (path : String) (l : List String) :
    decodeStrList path (strListToJson l) = .ok l := by
  simp only [decodeStrList, strListToJson, asArr]
  exact mapExcept_map _ _ _ (fun s _ => rfl)

lemma decodeRelationship_toJson (r : Relationship) :
    decodeRelationship (Relationship.toJson r) = .ok r := by
  simp [decodeRelationship, Relationship.toJson, asObj, reqStr, reqField, lookupJ, asString]

lemma decodeRelList_toJson (l : List Relationship) :
    decodeRelList (.arr (l.map Relationship.toJson)) = .ok l := by
  simp only [decodeRelList, asArr]
  exact mapExcept_map _ _ _ (fun b _ => decodeRelationship_toJson b)

lemma decodeProductTree_toJson (fuel : Nat) (pt : ProductTree)
    (h : sizeJ (ProductTree.toJson pt) ≤ fuel) :
    decodeProductTree fuel (ProductTree.toJson pt) = .ok pt := by
  obtain ⟨obs, orels⟩ := pt
  cases obs with
  | none =>
    cases orels <;>
      simp [decodeProductTree, ProductTree.toJson, optPair, asObj, optWith, optField,
        denull_none, denull_some_arr, lookupJ, decodeRelList_toJson]
  | some bs =>
    have hb : sizeJ (.arr (Branch.listToJson bs)) ≤ fuel := by
      rw [ProductTree.toJson] at h
      cases orels <;>
        (simp only [optPair, sizeJ, sizeMems, List.cons_append, List.nil_append,
          List.append_nil] at h ⊢; omega)
    have hl := (branchRTAll fuel).2.1 bs hb
    cases orels <;>
      simp [decodeProductTree, ProductTree.toJson, optPair, asObj, optWith, optField,
        denull_none, denull_some_arr, lookupJ, decodeRelList_toJson, hl]

lemma decodeProductStatus_toJson (ps : ProductStatus) :
    decodeProductStatus (ProductStatus.toJson ps) = .ok ps := by
  obtain ⟨ofix, oka⟩ := ps
  cases ofix <;> cases oka <;>
    simp [decodeProductStatus, ProductStatus.toJson, optPair, asObj, optWith, optField,
      denull_none, denull_some_strList, lookupJ, decodeStrList_toJson]

lemma decodeRemediation_toJson (r : Remediation) (h : r.canonical = true) :
    decodeRemediation (Remediation.toJson r) = .ok r := by
  obtain ⟨cat, odet, odate, opids⟩ := r
  simp only [Remediation.canonical] at h
  cases odet <;> cases odate <;> cases opids <;>
    simp [decodeRemediation, Remediation.toJson, optPair, asObj, reqWith, optStr, optWith,
      optField, denull_none, denull_some_str, denull_some_strList, lookupJ,
      decodeStrList_toJson, decodeRemediationCategory, asString,
      remediationCategoryOfText_toText _ h]

lemma decodeRemList_toJson (l : List Remediation) (h : l.all Remediation.canonical = true) :
    decodeRemList (.arr (l.map Remediation.toJson)) = .ok l := by
  simp only [decodeRemList, asArr]
  exact mapExcept_map _ _ _ (fun b hb =>
    decodeRemediation_toJson b (by
      rw [List.all_eq_true] at h
      simpa using h b hb))

lemma decodeScore_toJson (s : Score) : decodeScore (Score.toJson s) = .ok s := by
  obtain ⟨prods, osev⟩ := s
  cases osev <;>
    simp [decodeScore, Score.toJson, optPair, asObj, reqWith, optStr, optField,
      denull_none, denull_some_str, lookupJ, asString, decodeStrList_toJson]

lemma decodeScoreList_toJson (l : List Score) :
    decodeScoreList (.arr (l.map Score.toJson)) = .ok l := by
  simp only [decodeScoreList, asArr]
  exact mapExcept_map _ _ _ (fun b _ => decodeScore_toJson b)

lemma decodeVulnerability_toJson (v : Vulnerability) (h : v.canonical = true) :
    decodeVulnerability (Vulnerability.toJson v) = .ok v := by
  obtain ⟨ocve, otitle, ops, orems, oscores⟩ := v
  simp only [Vulnerability.canonical] at h
  cases ocve <;> cases otitle <;> cases ops <;> cases oscores <;> cases horems : orems <;>
    (try subst horems) <;>
    simp_all [decodeVulnerability, Vulnerability.toJson, optPair, asObj, optStr, optWith,
      optField, denull_none, denull_some_str, denull_some_ps, denull_some_arr, lookupJ,
      asString, decodeProductStatus_toJson, decodeRemList_toJson, decodeScoreList_toJson]

lemma decodeVulnList_toJson (l : List Vulnerability) (h : l.all Vulnerability.canonical = true) :
    decodeVulnList (.arr (l.map Vulnerability.toJson)) = .ok l := by
  simp only [decodeVulnList, asArr]
  exact mapExcept_map _ _ _ (fun b hb =>
    decodeVulnerability_toJson b (by
      rw [List.all_eq_true] at h
      simpa using h b hb))

lemma decodeCsaf_toJson (c : Csaf) (h : c.canonical = true) :
    decodeCsaf (Csaf.toJson c) = .ok c := by
  obtain ⟨doc, opt, ovulns⟩ := c
  simp only [Csaf.canonical, Bool.and_eq_true] at h
  obtain ⟨hdoc, hvulns⟩ := h
  cases opt with
  | none =>
    cases ovulns with
    | none =>
      simp [decodeCsaf, Csaf.toJson, optPair, asObj, reqWith, optWith, optField,
        denull_none, lookupJ, decodeDocument_toJson doc hdoc]
    | some vl =>
      simp only [] at hvulns
      simp [decodeCsaf, Csaf.toJson, optPair, asObj, reqWith, optWith, optField,
        denull_none, denull_some_arr, lookupJ, decodeDocument_toJson doc hdoc,
        decodeVulnList_toJson vl hvulns]
  | some pt =>
    have hb : sizeJ (ProductTree.toJson pt) ≤ sizeJ (Csaf.toJson ⟨doc, some pt, ovulns⟩) := by
      rw [Csaf.toJson]
      cases ovulns <;>
        (simp only [optPair, sizeJ, sizeMems, List.cons_append, List.nil_append,
          List.append_nil]; omega)
    have hpt := decodeProductTree_toJson _ pt hb
    simp only [Csaf.toJson, optPair, List.cons_append, List.nil_append,
      List.append_nil] at hpt
    cases ovulns with
    | none =>
      simp [decodeCsaf, Csaf.toJson, optPair, asObj, reqWith, optWith, optField,
        denull_none, denull_some_pt, lookupJ, decodeDocument_toJson doc hdoc, hpt]
    | some vl =>
      simp only [] at hvulns
      simp [decodeCsaf, Csaf.toJson, optPair, asObj, reqWith, optWith, optField,
        denull_none, denull_some_pt, denull_some_arr, lookupJ,
        decodeDocument_toJson doc hdoc, hpt, decodeVulnList_toJson vl hvulns]

theorem parse_serialize_of_canonical (c : Csaf) (h : c.canonical = true) :
    parse (serialize c) = .ok c := by
  unfold parse serialize
  rw [parseText_render (Csaf.toJson c)]
  exact decodeCsaf_toJson c h

lemma reqWith_ok {α : Type} {f : Json → Except ParseError α} {k : String}
    {kvs : List (String × Json)} {a : α} (h : reqWith f k kvs = .ok a) :
    ∃ u, lookupJ k kvs = some u ∧ f u = .ok a := by
  simp only [reqWith] at h
  split at h
  · simp at h
  · rename_i u heq
    exact ⟨u, heq, h⟩

lemma optWith_ok {α : Type} {f : Json → Except ParseError α} {k : String}
    {kvs : List (String × Json)} {r : Option α} (h : optWith f k kvs = .ok r) :
    (optField k kvs = none ∧ r = none) ∨
    ∃ u a, optField k kvs = some u ∧ f u = .ok a ∧ r = some a := by
  simp only [optWith] at h
  split at h
  · rename_i heq
    simp only [Except.ok.injEq] at h
    exact Or.inl ⟨heq, h.symm⟩
  · rename_i u heq
    split at h
    · simp at h
    · rename_i a heq2
      simp only [Except.ok.injEq] at h
      exact Or.inr ⟨u, a, heq, heq2, h.symm⟩

lemma mapExcept_all {β : Type} {f : Json → Except ParseError β} {P : β → Bool}
    (hok : ∀ j b, f j = .ok b → P b = true) :
    ∀ {es : List Json} {bs : List β}, mapExcept f es = .ok bs → bs.all P = true := by
  intro es
  induction es with
  | nil =>
    intro bs h
    simp only [mapExcept, Except.ok.injEq] at h
    subst h
    rfl
  | cons j js ih =>
    intro bs h
    simp only [mapExcept] at h
    split at h
    · simp at h
    · rename_i b hb
      split at h
      · simp at h
      · rename_i rest hrest
        simp only [Except.ok.injEq] at h
        subst h
        simp [List.all_cons, hok j b hb, ih hrest]

lemma decodeDocumentCategory_canonical {p : String} {j : Json} {c : DocumentCategory}
    (h : decodeDocumentCategory p j = .ok c) : c.canonical = true := by
  simp only [decodeDocumentCategory] at h
  split at h
  · simp at h
  · rename_i s heq
    simp only [Except.ok.injEq] at h
    subst h
    exact documentCategoryOfText_canonical s

lemma decodePublisherCategory_canonical {p : String} {j : Json} {c : PublisherCategory}
    (h : decodePublisherCategory p j = .ok c) : c.canonical = true := by
  simp only [decodePublisherCategory] at h
  split at h
  · simp at h
  · rename_i s heq
    simp only [Except.ok.injEq] at h
    subst h
    exact publisherCategoryOfText_canonical s

lemma decodeTrackingStatus_canonical {p : String} {j : Json} {c : TrackingStatus}
    (h : decodeTrackingStatus p j = .ok c) : c.canonical = true := by
  simp only [decodeTrackingStatus] at h
  split at h
  · simp at h
  · rename_i s heq
    simp only [Except.ok.injEq] at h
    subst h
    exact trackingStatusOfText_canonical s

lemma decodeRemediationCategory_canonical {p : String} {j : Json} {c : RemediationCategory}
    (h : decodeRemediationCategory p j = .ok c) : c.canonical = true := by
  simp only [decodeRemediationCategory] at h
  split at h
  · simp at h
  · rename_i s heq
    simp only [Except.ok.injEq] at h
    subst h
    exact remediationCategoryOfText_canonical s

lemma decodePublisher_canonical {j : Json} {p : Publisher}
    (h : decodePublisher j = .ok p) : p.category.canonical = true := by
  simp only [decodePublisher] at h
  split at h
  · simp at h
  split at h
  · simp at h
  rename_i cat hcat
  split at h
  · simp at h
  split at h
  · simp at h
  simp only [Except.ok.injEq] at h
  subst h
  obtain ⟨u, -, hdec⟩ := reqWith_ok hcat
  exact decodePublisherCategory_canonical hdec

lemma decodeTracking_canonical {j : Json} {t : Tracking}
    (h : decodeTracking j = .ok t) : t.status.canonical = true := by
  simp only [decodeTracking] at h
  split at h
  · simp at h
  split at h
  · simp at h
  split at h
  · simp at h
  split at h
  · simp at h
  split at h
  · simp at h
  split at h
  · simp at h
  rename_i st hst
  split at h
  · simp at h
  simp only [Except.ok.injEq] at h
  subst h
  obtain ⟨u, -, hdec⟩ := reqWith_ok hst
  exact decodeTrackingStatus_canonical hdec

lemma decodeDocument_canonical {j : Json} {d : Document}
    (h : decodeDocument j = .ok d) : d.canonical = true := by
  simp only [decodeDocument] at h
  split at h
  · simp at h
  split at h
  · simp at h
  rename_i cat hcat
  split at h
  · simp at h
  split at h
  · simp at h
  rename_i pub hpub
  split at h
  · simp at h
  split at h
  · simp at h
  rename_i tr htr
  split at h
  · simp at h
  simp only [Except.ok.injEq] at h
  subst h
  obtain ⟨u1, -, hdec1⟩ := reqWith_ok hcat
  obtain ⟨u2, -, hdec2⟩ := reqWith_ok hpub
  obtain ⟨u3, -, hdec3⟩ := reqWith_ok htr
  simp [Document.canonical, decodeDocumentCategory_canonical hdec1,
    decodePublisher_canonical hdec2, decodeTracking_canonical hdec3]

lemma decodeRemediation_canonical {j : Json} {r : Remediation}
    (h : decodeRemediation j = .ok r) : r.canonical = true := by
  simp only [decodeRemediation] at h
  split at h
  · simp at h
  split at h
  · simp at h
  rename_i cat hcat
  split at h
  · simp at h
  split at h
  · simp at h
  split at h
  · simp at h
  simp only [Except.ok.injEq] at h
  subst h
  obtain ⟨u, -, hdec⟩ := reqWith_ok hcat
  exact decodeRemediationCategory_canonical hdec

lemma decodeRemList_all {j : Json} {l : List Remediation}
    (h : decodeRemList j = .ok l) : l.all Remediation.canonical = true := by
  simp only [decodeRemList] at h
  split at h
  · simp at h
  exact mapExcept_all (fun j r hr => decodeRemediation_canonical hr) h

lemma decodeVulnerability_canonical {j : Json} {v : Vulnerability}
    (h : decodeVulnerability j = .ok v) : v.canonical = true := by
  simp only [decodeVulnerability] at h
  split at h
  · simp at h
  split at h
  · simp at h
  split at h
  · simp at h
  split at h
  · simp at h
  split at h
  · simp at h
  rename_i rems hrems
  split at h
  · simp at h
  simp only [Except.ok.injEq] at h
  subst h
  simp only [Vulnerability.canonical]
  rcases optWith_ok hrems with ⟨-, hnone⟩ | ⟨u, a, -, hdec, hsome⟩
  · subst hnone
    rfl
  · subst hsome
    exact decodeRemList_all hdec

lemma decodeVulnList_all {j : Json} {l : List Vulnerability}
    (h : decodeVulnList j = .ok l) : l.all Vulnerability.canonical = true := by
  simp only [decodeVulnList] at h
  split at h
  · simp at h
  exact mapExcept_all (fun j v hv => decodeVulnerability_canonical hv) h

lemma decodeCsaf_canonical {j : Json} {c : Csaf}
    (h : decodeCsaf j = .ok c) : c.canonical = true := by
  simp only [decodeCsaf] at h
  split at h
  · simp at h
  split at h
  · simp at h
  rename_i doc hdoc
  split at h
  · simp at h
  split at h
  · simp at h
  rename_i vulns hvulns
  simp only [Except.ok.injEq] at h
  subst h
  obtain ⟨u, -, hdec⟩ := reqWith_ok hdoc
  simp only [Csaf.canonical, Bool.and_eq_true]
  refine ⟨decodeDocument_canonical hdec, ?_⟩
  rcases optWith_ok hvulns with ⟨-, hnone⟩ | ⟨u2, a, -, hdec2, hsome⟩
  · subst hnone
    rfl
  · subst hsome
    exact decodeVulnList_all hdec2

/-- The publisher of the generic CSAF template of the `src/lib.rs` test. -/
def examplePublisher : Publisher := ⟨.other, "OASIS CSAF TC", "https://csaf.io"⟩

/-- The tracking record of the generic CSAF template. -/
def exampleTracking : Tracking :=
  ⟨"2021-07-21T10:00:00.000Z", "OASIS_CSAF_TC-CSAF_2.0-2021-TEMPLATE",
   "2021-07-21T10:00:00.000Z", [⟨"2021-07-21T10:00:00.000Z", "1", "Initial version."⟩],
   .final, "1"⟩

/-- The document of the generic CSAF template (its `generic_csaf` category is
not a known category code and lands in the catch-all arm). -/
def exampleDocument : Document :=
  ⟨.unrecognized "generic_csaf", "2.0", examplePublisher, "Template", exampleTracking, none⟩

/-- The generic CSAF template as a value: no product tree, no
vulnerabilities. -/
def exampleCsaf : Csaf := ⟨exampleDocument, none, none⟩

/-- The generic CSAF template as JSON text (compacted from the
`generic_template_deserializes` test of `src/lib.rs`). -/
def exampleDocText : String :=
  "\x7b\"document\":\x7b\"category\":\"generic_csaf\",\"csaf_version\":\"2.0\",\"publisher\":\x7b\"category\":\"other\",\"name\":\"OASIS CSAF TC\",\"namespace\":\"https://csaf.io\"\x7d,\"title\":\"Template\",\"tracking\":\x7b\"current_release_date\":\"2021-07-21T10:00:00.000Z\",\"id\":\"OASIS_CSAF_TC-CSAF_2.0-2021-TEMPLATE\",\"initial_release_date\":\"2021-07-21T10:00:00.000Z\",\"revision_history\":[\x7b\"date\":\"2021-07-21T10:00:00.000Z\",\"number\":\"1\",\"summary\":\"Initial version.\"\x7d],\"status\":\"final\",\"version\":\"1\"\x7d\x7d\x7d"

/-- C1: for every well-formed input byte sequence `b` that parses
successfully to a value `v`, `serialize v` parses successfully and
`parse (serialize v)` equals `v` under structural equality (the round-trip
contract of the `serde_json_round_trip` test in `src/lib.rs`). -/
theorem csaf_parse_serialize_roundtrip (b : String) (v : Csaf) (h : parse b = .ok v) :
    parse (serialize v) = .ok v := by
  simp only [parse] at h
  split at h
  · simp at h
  exact parse_serialize_of_canonical v (decodeCsaf_canonical h)

set_option maxRecDepth 20000 in
/-- Witness for C1 at the generic CSAF template. -/
theorem csaf_parse_serialize_roundtrip_witness :
    parse exampleDocText = .ok exampleCsaf ∧
      parse (serialize exampleCsaf) = .ok exampleCsaf :=
  ⟨by rfl, csaf_parse_serialize_roundtrip exampleDocText exampleCsaf (by rfl)⟩

/-- C3: serialization is deterministic and byte-stable: `serialize v`
trivially equals itself, and re-parsing the serialized text yields a value
whose serialization is byte-for-byte the same. -/
theorem csaf_serialize_deterministic_stable (b : String) (v : Csaf) (h : parse b = .ok v) :
    serialize v = serialize v ∧
      ∃ v', parse (serialize v) = .ok v' ∧ serialize v' = serialize v :=
  ⟨rfl, v, csaf_parse_serialize_roundtrip b v h, rfl⟩

set_option maxRecDepth 20000 in
/-- Witness for C3 at the generic CSAF template. -/
theorem csaf_serialize_deterministic_stable_witness :
    serialize exampleCsaf = serialize exampleCsaf ∧
      ∃ v', parse (serialize exampleCsaf) = .ok v' ∧ serialize v' = serialize exampleCsaf :=
  csaf_serialize_deterministic_stable exampleDocText exampleCsaf (by rfl)

mutual

/-- No explicit `null` occurs anywhere in a JSON value. -/
def noNull : Json → Bool
  | .null => false
  | .bool _ => true
  | .str _ => true
  | .arr es => noNullElems es
  | .obj ms => noNullMems ms

/-- No `null` in any array element. -/
def noNullElems : List Json → Bool
  | [] => true
  | j :: js => noNull j && noNullElems js

/-- No `null` in any object member value. -/
def noNullMems : List (String × Json) → Bool
  | [] => true
  | (_, v) :: ms => noNull v && noNullMems ms

end

/-- The members of a JSON object (empty for the other kinds). -/
def objMembers : Json → List (String × Json)
  | .obj ms => ms
  | _ => []

lemma noNullMems_append {xs ys : List (String × Json)}
    (hx : noNullMems xs = true) (hy : noNullMems ys = true) :
    noNullMems (xs ++ ys) = true := by
  induction xs with
  | nil => simpa using hy
  | cons p rest ih =>
    obtain ⟨k, v⟩ := p
    simp only [noNullMems, Bool.and_eq_true, List.cons_append] at hx ⊢
    exact ⟨hx.1, ih hx.2⟩

lemma noNullMems_optPair {α : Type} (k : String) (f : α → Json) (o : Option α)
    (h : ∀ a, noNull (f a) = true) : noNullMems (optPair k f o) = true := by
  cases o <;> simp [optPair, noNullMems, h]

lemma noNullElems_map {α : Type} (f : α → Json) (l : List α)
    (h : ∀ a, noNull (f a) = true) : noNullElems (l.map f) = true := by
  induction l with
  | nil => rfl
  | cons a rest ih => simp [noNullElems, h, ih]

lemma noNull_strListToJson (l : List String) : noNull (strListToJson l) = true := by
  simp only [strListToJson, noNull]
  exact noNullElems_map _ _ (fun s => rfl)

lemma noNull_str (s : String) : noNull (.str s) = true := rfl

lemma noNull_revision (r : Revision) : noNull (Revision.toJson r) = true := rfl

lemma noNull_publisher (p : Publisher) : noNull (Publisher.toJson p) = true := rfl

lemma noNull_tracking (t : Tracking) : noNull (Tracking.toJson t) = true := by
  have h := noNullElems_map Revision.toJson t.revision_history (fun r => noNull_revision r)
  simp [Tracking.toJson, noNull, noNullMems, noNullElems, h]

lemma noNull_document (d : Document) : noNull (Document.toJson d) = true := by
  simp only [Document.toJson, noNull]
  apply noNullMems_append
  · simp [noNullMems, noNull_str, noNull_publisher d.publisher, noNull_tracking d.tracking]
  · exact noNullMems_optPair _ _ _ (fun s => rfl)

lemma noNull_fpn (f : FullProductName) : noNull (FullProductName.toJson f) = true := rfl

mutual

theorem noNull_branch : ∀ b : Branch, noNull (Branch.toJson b) = true
  | .mk n c obs op => by
    rw [Branch.toJson.eq_def]
    simp only [noNull]
    apply noNullMems_append
    · apply noNullMems_append
      · rfl
      · cases obs with
        | none => rfl
        | some bs =>
          simp only [noNullMems, noNull, Bool.and_eq_true]
          exact ⟨noNull_branchList bs, by trivial⟩
    · exact noNullMems_optPair _ _ _ (fun fp => noNull_fpn fp)

theorem noNull_branchList : ∀ bs : List Branch, noNullElems (Branch.listToJson bs) = true
  | [] => rfl
  | b :: bs => by
    simp only [Branch.listToJson, noNullElems, Bool.and_eq_true]
    exact ⟨noNull_branch b, noNull_branchList bs⟩

end

lemma noNull_relationship (r : Relationship) : noNull (Relationship.toJson r) = true := rfl

lemma noNull_productTree (pt : ProductTree) : noNull (ProductTree.toJson pt) = true := by
  simp only [ProductTree.toJson, noNull]
  apply noNullMems_append
  · refine noNullMems_optPair _ _ _ (fun bs => ?_)
    simp only [noNull]
    exact noNull_branchList bs
  · refine noNullMems_optPair _ _ _ (fun rs => ?_)
    simp only [noNull]
    exact noNullElems_map _ _ (fun r => noNull_relationship r)

lemma noNull_productStatus (ps : ProductStatus) : noNull (ProductStatus.toJson ps) = true := by
  simp only [ProductStatus.toJson, noNull]
  apply noNullMems_append <;> exact noNullMems_optPair _ _ _ (fun l => noNull_strListToJson l)

lemma noNull_remediation (r : Remediation) : noNull (Remediation.toJson r) = true := by
  simp only [Remediation.toJson, noNull]
  apply noNullMems_append
  · apply noNullMems_append
    · apply noNullMems_append
      · rfl
      · exact noNullMems_optPair _ _ _ (fun s => rfl)
    · exact noNullMems_optPair _ _ _ (fun s => rfl)
  · exact noNullMems_optPair _ _ _ (fun l => noNull_strListToJson l)

lemma noNull_score (s : Score) : noNull (Score.toJson s) = true := by
  simp only [Score.toJson, noNull]
  apply noNullMems_append
  · simp only [noNullMems, Bool.and_eq_true]
    exact ⟨noNull_strListToJson s.products, by trivial⟩
  · exact noNullMems_optPair _ _ _ (fun str => rfl)

lemma noNull_vulnerability (v : Vulnerability) : noNull (Vulnerability.toJson v) = true := by
  simp only [Vulnerability.toJson, noNull]
  apply noNullMems_append
  · apply noNullMems_append
    · apply noNullMems_append
      · apply noNullMems_append
        · exact noNullMems_optPair _ _ _ (fun s => rfl)
        · exact noNullMems_optPair _ _ _ (fun s => rfl)
      · exact noNullMems_optPair _ _ _ (fun ps => noNull_productStatus ps)
    · refine noNullMems_optPair _ _ _ (fun l => ?_)
      simp only [noNull]
      exact noNullElems_map _ _ (fun r => noNull_remediation r)
  · refine noNullMems_optPair _ _ _ (fun l => ?_)
    simp only [noNull]
    exact noNullElems_map _ _ (fun s => noNull_score s)

lemma noNull_csaf (c : Csaf) : noNull (Csaf.toJson c) = true := by
  simp only [Csaf.toJson, noNull]
  apply noNullMems_append
  · apply noNullMems_append
    · simp only [noNullMems, Bool.and_eq_true]
      exact ⟨noNull_document c.document, by trivial⟩
    · exact noNullMems_optPair _ _ _ (fun pt => noNull_productTree pt)
  · refine noNullMems_optPair _ _ _ (fun l => ?_)
    simp only [noNull]
    exact noNullElems_map _ _ (fun v => noNull_vulnerability v)

/-- C2: absent optional fields are omitted from the serialized output
entirely: when `product_tree` or `vulnerabilities` is `None` its key does not
occur in the serialized object, and the serialization of any value never
contains an explicit JSON `null` anywhere (the `skip_serializing_none`
contract of `src/lib.rs`). -/
theorem csaf_serialize_omits_absent (v : Csaf) :
    (v.product_tree = none →
      lookupJ "product_tree" (objMembers (Csaf.toJson v)) = none) ∧
    (v.vulnerabilities = none →
      lookupJ "vulnerabilities" (objMembers (Csaf.toJson v)) = none) ∧
    noNull (Csaf.toJson v) = true := by
  obtain ⟨doc, opt, ovulns⟩ := v
  refine ⟨?_, ?_, noNull_csaf _⟩
  · intro h
    simp only [] at h
    subst h
    cases ovulns <;> simp [Csaf.toJson, optPair, objMembers, lookupJ]
  · intro h
    simp only [] at h
    subst h
    cases opt <;> simp [Csaf.toJson, optPair, objMembers, lookupJ]

/-- Witness for C2 at the generic CSAF template (both optional fields
absent). -/
theorem csaf_serialize_omits_absent_witness :
    lookupJ "product_tree" (objMembers (Csaf.toJson exampleCsaf)) = none ∧
      lookupJ "vulnerabilities" (objMembers (Csaf.toJson exampleCsaf)) = none ∧
      noNull (Csaf.toJson exampleCsaf) = true :=
  ⟨(csaf_serialize_omits_absent exampleCsaf).1 rfl,
   (csaf_serialize_omits_absent exampleCsaf).2.1 rfl,
   (csaf_serialize_omits_absent exampleCsaf).2.2⟩

lemma lenMemsTail_append_one (ms : List (String × Json)) (k : String) (w : Json) :
    (renderMemsTail (ms ++ [(k, w)])).length =
      (renderMemsTail ms).length + (renderStr k).length + (renderJson w).length + 2 := by
  induction ms with
  | nil =>
    simp only [List.nil_append, renderMemsTail, List.length_cons, List.length_append,
      List.length_nil]
    omega
  | cons m rest ih =>
    obtain ⟨km, vm⟩ := m
    simp only [List.append_eq] at ih
    simp only [List.cons_append, List.append_eq, renderMemsTail, List.length_cons,
      List.length_append, ih]
    omega

/-- C9: a value whose optional `vulnerabilities` collection is absent
serializes without that key, the same value with an explicit empty collection
serializes with the key present and an empty array, and the two serialized
byte sequences are distinct. -/
theorem csaf_absent_vs_empty (v : Csaf) :
    lookupJ "vulnerabilities"
        (objMembers (Csaf.toJson ⟨v.document, v.product_tree, none⟩)) = none ∧
    lookupJ "vulnerabilities"
        (objMembers (Csaf.toJson ⟨v.document, v.product_tree, some []⟩)) = some (.arr []) ∧
    serialize ⟨v.document, v.product_tree, none⟩ ≠
      serialize ⟨v.document, v.product_tree, some []⟩ := by
  obtain ⟨doc, opt, -⟩ := v
  refine ⟨?_, ?_, ?_⟩
  · cases opt <;> simp [Csaf.toJson, optPair, objMembers, lookupJ]
  · cases opt <;> simp [Csaf.toJson, optPair, objMembers, lookupJ]
  · have hlt : (renderJson (Csaf.toJson ⟨doc, opt, none⟩)).length <
        (renderJson (Csaf.toJson ⟨doc, opt, some []⟩)).length := by
      cases opt <;>
        (simp only [Csaf.toJson, optPair, List.map_nil, List.append_nil, List.nil_append,
          List.singleton_append, List.cons_append]
         rw [renderJson, renderJson]
         simp only [renderMems, renderMemsTail, List.length_cons, List.length_append,
           List.length_nil]
         omega)
    intro heq
    have hdata : renderJson (Csaf.toJson ⟨doc, opt, none⟩) =
        renderJson (Csaf.toJson ⟨doc, opt, some []⟩) :=
      congrArg String.data heq
    have := congrArg List.length hdata
    omega

/-- Witness for C9 at the generic CSAF template. -/
theorem csaf_absent_vs_empty_witness :
    lookupJ "vulnerabilities"
        (objMembers (Csaf.toJson ⟨exampleDocument, none, none⟩)) = none ∧
    lookupJ "vulnerabilities"
        (objMembers (Csaf.toJson ⟨exampleDocument, none, some []⟩)) = some (.arr []) ∧
    serialize ⟨exampleDocument, none, none⟩ ≠ serialize ⟨exampleDocument, none, some []⟩ :=
  csaf_absent_vs_empty ⟨exampleDocument, none, none⟩

/-- C5: a syntactically well-formed input whose top level object lacks the
mandatory `document` field parses to `ParseError.missingField` carrying the
missing field's path, and no partial value is returned (`parse` is
all-or-nothing by its result type). -/
theorem csaf_parse_missing_document (s : String) (kvs : List (String × Json))
    (h1 : parseText s = .ok (.obj kvs)) (h2 : lookupJ "document" kvs = none) :
    parse s = .error (.missingField "document") := by
  simp [parse, h1, decodeCsaf, asObj, reqWith, h2]

/-- Witness for C5 at the empty JSON object. -/
theorem csaf_parse_missing_document_witness :
    parseText "\x7b\x7d" = .ok (.obj []) ∧
      parse "\x7b\x7d" = .error (.missingField "document") :=
  ⟨by rfl, csaf_parse_missing_document "\x7b\x7d" [] (by rfl) rfl⟩

lemma lookupJ_size {k : String} {kvs : List (String × Json)} {u : Json}
    (h : lookupJ k kvs = some u) : sizeJ u + 2 ≤ sizeMems kvs := by
  induction kvs with
  | nil => simp [lookupJ] at h
  | cons p rest ih =>
    obtain ⟨k', v⟩ := p
    by_cases hk : k' = k
    · subst hk
      simp only [lookupJ, if_true, eq_self_iff_true, Option.some.injEq] at h
      subst h
      simp only [sizeMems]
      omega
    · simp only [lookupJ, if_neg hk] at h
      have := ih h
      simp only [sizeMems]
      omega

lemma optField_some {k : String} {kvs : List (String × Json)} {u : Json}
    (h : optField k kvs = some u) : lookupJ k kvs = some u := by
  simp only [optField] at h
  cases hl : lookupJ k kvs with
  | none => rw [hl] at h; simp [denull] at h
  | some w =>
    rw [hl] at h
    cases w <;> simp [denull] at h <;> simp [h]

/-- The bundle of fuel-stability statements for the branch decoders: any two
sufficient fuels give the same result. -/
def BranchStable (f1 : Nat) : Prop :=
  (∀ f2 j, sizeJ j ≤ f1 → sizeJ j ≤ f2 → decodeBranch f1 j = decodeBranch f2 j) ∧
  (∀ f2 j, sizeJ j ≤ f1 → sizeJ j ≤ f2 → decodeBranchList f1 j = decodeBranchList f2 j) ∧
  (∀ f2 es, sizeElems es ≤ f1 → sizeElems es ≤ f2 →
    decodeBranchElems f1 es = decodeBranchElems f2 es)

theorem branchStableAll : ∀ f1, BranchStable f1 := by
  intro f1
  induction f1 with
  | zero =>
    refine ⟨?_, ?_, ?_⟩
    · intro f2 j hj _
      exfalso
      cases j <;> simp [sizeJ] at hj
    · intro f2 j hj _
      exfalso
      cases j <;> simp [sizeJ] at hj
    · intro f2 es hes _
      cases es with
      | nil => cases f2 <;> rfl
      | cons e es =>
        exfalso
        simp only [sizeElems] at hes
        have : 1 ≤ sizeJ e := by cases e <;> simp [sizeJ]
        omega
  | succ f IH =>
    obtain ⟨IHb, IHl, IHe⟩ := IH
    refine ⟨?_, ?_, ?_⟩
    · intro f2 j hj hj2
      have h1 : 1 ≤ sizeJ j := by cases j <;> simp [sizeJ]
      obtain ⟨g2, rfl⟩ : ∃ g2, f2 = g2 + 1 := ⟨f2 - 1, by omega⟩
      cases j with
      | obj kvs =>
        simp only [decodeBranch, asObj]
        cases hlb : lookupJ "branches" kvs with
        | none =>
          simp [optWith, optField, hlb, denull]
        | some u =>
          have hu := lookupJ_size hlb
          rw [sizeJ] at hj hj2
          cases u with
          | null => simp [optWith, optField, hlb, denull]
          | bool b =>
            simp [optWith, optField, hlb, denull,
              IHl (g2) (.bool b) (by simp [sizeJ] at hu ⊢; omega) (by simp [sizeJ] at hu ⊢; omega)]
          | str s =>
            simp [optWith, optField, hlb, denull,
              IHl (g2) (.str s) (by simp [sizeJ] at hu ⊢; omega) (by simp [sizeJ] at hu ⊢; omega)]
          | arr es =>
            simp [optWith, optField, hlb, denull,
              IHl (g2) (.arr es) (by simp [sizeJ] at hu ⊢; omega) (by simp [sizeJ] at hu ⊢; omega)]
          | obj ms =>
            simp [optWith, optField, hlb, denull,
              IHl (g2) (.obj ms) (by simp [sizeJ] at hu ⊢; omega) (by simp [sizeJ] at hu ⊢; omega)]
      | null => simp [decodeBranch, asObj]
      | bool b => simp [decodeBranch, asObj]
      | str s => simp [decodeBranch, asObj]
      | arr es => simp [decodeBranch, asObj]
    · intro f2 j hj hj2
      have h1 : 1 ≤ sizeJ j := by cases j <;> simp [sizeJ]
      obtain ⟨g2, rfl⟩ : ∃ g2, f2 = g2 + 1 := ⟨f2 - 1, by omega⟩
      cases j with
      | arr es =>
        rw [sizeJ] at hj hj2
        simp only [decodeBranchList, asArr]
        exact IHe g2 es (by omega) (by omega)
      | null => simp [decodeBranchList, asArr]
      | bool b => simp [decodeBranchList, asArr]
      | str s => simp [decodeBranchList, asArr]
      | obj ms => simp [decodeBranchList, asArr]
    · intro f2 es hes hes2
      cases es with
      | nil => cases f2 <;> rfl
      | cons e es =>
        simp only [sizeElems] at hes hes2
        have h1 : 1 ≤ sizeJ e := by cases e <;> simp [sizeJ]
        obtain ⟨g2, rfl⟩ : ∃ g2, f2 = g2 + 1 := ⟨f2 - 1, by omega⟩
        simp only [decodeBranchElems]
        rw [IHb g2 e (by omega) (by omega), IHe g2 es (by omega) (by omega)]

lemma decodeProductTree_stable {f1 f2 : Nat} {j : Json}
    (h1 : sizeJ j ≤ f1) (h2 : sizeJ j ≤ f2) :
    decodeProductTree f1 j = decodeProductTree f2 j := by
  cases j with
  | obj kvs =>
    rw [sizeJ] at h1 h2
    simp only [decodeProductTree, asObj]
    cases hlb : optField "branches" kvs with
    | none => simp [optWith, hlb]
    | some u =>
      have hu := lookupJ_size (optField_some hlb)
      simp only [optWith, hlb]
      rw [(branchStableAll f1).2.1 f2 u (by omega) (by omega)]
  | null => simp [decodeProductTree, asObj]
  | bool b => simp [decodeProductTree, asObj]
  | str s => simp [decodeProductTree, asObj]
  | arr es => simp [decodeProductTree, asObj]

/-- C10: an explicit JSON `null` for the optional top-level fields
`product_tree` and `vulnerabilities` decodes exactly like an absent key (serde
deserializes both a missing key and `null` to `None` for an `Option` field),
even though `serialize` never emits `null` for them (C2). -/
theorem csaf_parse_null_optional (kvs : List (String × Json)) :
    (lookupJ "product_tree" kvs = none →
      decodeCsaf (.obj (("product_tree", Json.null) :: kvs)) = decodeCsaf (.obj kvs)) ∧
    (lookupJ "vulnerabilities" kvs = none →
      decodeCsaf (.obj (("vulnerabilities", Json.null) :: kvs)) = decodeCsaf (.obj kvs)) := by
  constructor
  · intro h1
    simp [decodeCsaf, asObj, reqWith, optWith, optField, denull, lookupJ, h1]
  · intro h2
    have hstab : ∀ u, optField "product_tree" kvs = some u →
        decodeProductTree (sizeJ (Json.obj (("vulnerabilities", Json.null) :: kvs))) u =
          decodeProductTree (sizeJ (Json.obj kvs)) u := by
      intro u hu
      have hs := lookupJ_size (optField_some hu)
      exact decodeProductTree_stable
        (by simp only [sizeJ, sizeMems]; omega) (by simp only [sizeJ]; omega)
    simp only [decodeCsaf, asObj, reqWith]
    rw [show lookupJ "document" (("vulnerabilities", Json.null) :: kvs) =
      lookupJ "document" kvs by simp [lookupJ]]
    cases hld : lookupJ "document" kvs with
    | none => rfl
    | some dj =>
      simp only []
      cases hdd : decodeDocument dj with
      | error e => rfl
      | ok doc =>
        simp only [optWith]
        rw [show optField "product_tree" (("vulnerabilities", Json.null) :: kvs) =
          optField "product_tree" kvs by simp [optField, lookupJ]]
        cases hpt : optField "product_tree" kvs with
        | none =>
          simp only []
          rw [show optField "vulnerabilities" (("vulnerabilities", Json.null) :: kvs) =
            none by simp [optField, lookupJ, denull]]
          rw [show optField "vulnerabilities" kvs = none by simp [optField, h2, denull]]
        | some u =>
          simp only [hstab u hpt]
          cases decodeProductTree (sizeJ (Json.obj kvs)) u with
          | error e => rfl
          | ok pt =>
            simp only []
            rw [show optField "vulnerabilities" (("vulnerabilities", Json.null) :: kvs) =
              none by simp [optField, lookupJ, denull]]
            rw [show optField "vulnerabilities" kvs = none by simp [optField, h2, denull]]

/-- Witness for C10 at a single-member object holding the template
document. -/
theorem csaf_parse_null_optional_witness :
    decodeCsaf (.obj (("product_tree", Json.null) ::
        [("document", Document.toJson exampleDocument)])) =
      decodeCsaf (.obj [("document", Document.toJson exampleDocument)]) ∧
    decodeCsaf (.obj (("vulnerabilities", Json.null) ::
        [("document", Document.toJson exampleDocument)])) =
      decodeCsaf (.obj [("document", Document.toJson exampleDocument)]) :=
  ⟨(csaf_parse_null_optional _).1 rfl, (csaf_parse_null_optional _).2 rfl⟩

/-- C6: an enum-valued field set to a text value outside the known variant
set decodes (default, non-strict policy) to the catch-all arm carrying the
raw text, and re-serializing reproduces the original text exactly — for each
of the four modelled enum domains. -/
theorem csaf_enum_unrecognized_roundtrip (s : String) :
    (s ∉ knownDocumentCategories →
      decodeDocumentCategory "category" (.str s) = .ok (.unrecognized s) ∧
      DocumentCategory.toText (.unrecognized s) = s) ∧
    (s ∉ knownPublisherCategories →
      decodePublisherCategory "category" (.str s) = .ok (.unrecognized s) ∧
      PublisherCategory.toText (.unrecognized s) = s) ∧
    (s ∉ knownTrackingStatuses →
      decodeTrackingStatus "status" (.str s) = .ok (.unrecognized s) ∧
      TrackingStatus.toText (.unrecognized s) = s) ∧
    (s ∉ knownRemediationCategories →
      decodeRemediationCategory "category" (.str s) = .ok (.unrecognized s) ∧
      RemediationCategory.toText (.unrecognized s) = s) := by
  refine ⟨fun h => ⟨?_, rfl⟩, fun h => ⟨?_, rfl⟩, fun h => ⟨?_, rfl⟩, fun h => ⟨?_, rfl⟩⟩
  · simp only [knownDocumentCategories, List.mem_cons, List.not_mem_nil, or_false,
      not_or] at h
    simp [decodeDocumentCategory, asString, DocumentCategory.ofText, h.1, h.2.1, h.2.2]
  · simp only [knownPublisherCategories, List.mem_cons, List.not_mem_nil, or_false,
      not_or] at h
    obtain ⟨h1, h2, h3, h4, h5, h6⟩ := h
    simp [decodePublisherCategory, asString, PublisherCategory.ofText, h1, h2, h3, h4, h5, h6]
  · simp only [knownTrackingStatuses, List.mem_cons, List.not_mem_nil, or_false,
      not_or] at h
    simp [decodeTrackingStatus, asString, TrackingStatus.ofText, h.1, h.2.1, h.2.2]
  · simp only [knownRemediationCategories, List.mem_cons, List.not_mem_nil, or_false,
      not_or] at h
    obtain ⟨h1, h2, h3, h4, h5⟩ := h
    simp [decodeRemediationCategory, asString, RemediationCategory.ofText, h1, h2, h3, h4, h5]

/-- Witness for C6 at a text value outside all four known variant sets. -/
theorem csaf_enum_unrecognized_roundtrip_witness :
    decodeDocumentCategory "category" (.str "brand_new_value") =
        .ok (.unrecognized "brand_new_value") ∧
      decodePublisherCategory "category" (.str "brand_new_value") =
        .ok (.unrecognized "brand_new_value") ∧
      decodeTrackingStatus "status" (.str "brand_new_value") =
        .ok (.unrecognized "brand_new_value") ∧
      decodeRemediationCategory "category" (.str "brand_new_value") =
        .ok (.unrecognized "brand_new_value") :=
  ⟨((csaf_enum_unrecognized_roundtrip "brand_new_value").1 (by decide)).1,
   ((csaf_enum_unrecognized_roundtrip "brand_new_value").2.1 (by decide)).1,
   ((csaf_enum_unrecognized_roundtrip "brand_new_value").2.2.1 (by decide)).1,
   ((csaf_enum_unrecognized_roundtrip "brand_new_value").2.2.2 (by decide)).1⟩

/-- Every object key the decoders ever look up: the key set of the data
model. -/
def modelKeys : List String :=
  ["document", "product_tree", "vulnerabilities",
   "category", "csaf_version", "publisher", "title", "tracking", "lang",
   "name", "namespace",
   "current_release_date", "id", "initial_release_date", "revision_history",
   "status", "version",
   "date", "number", "summary",
   "branches", "relationships", "product", "product_id",
   "product_reference", "relates_to_product_reference",
   "cve", "product_status", "remediations", "scores",
   "fixed", "known_affected",
   "details", "product_ids",
   "products", "severity"]

/-- `Extends j j'` holds when `j'` is `j` with exactly one additional member
inserted into one object somewhere inside it, under a key that is not part of
the data model. -/
inductive Extends : Json → Json → Prop where
  | here (pre post : List (String × Json)) (k : String) (w : Json)
      (hk : k ∉ modelKeys) :
      Extends (.obj (pre ++ post)) (.obj (pre ++ (k, w) :: post))
  | inObj (pre post : List (String × Json)) (k : String) (u u' : Json) :
      Extends u u' →
      Extends (.obj (pre ++ (k, u) :: post)) (.obj (pre ++ (k, u') :: post))
  | inArr (pre post : List Json) (u u' : Json) :
      Extends u u' →
      Extends (.arr (pre ++ u :: post)) (.arr (pre ++ u' :: post))

lemma Extends_shape {j j' : Json} (h : Extends j j') :
    (∃ ms ms', j = .obj ms ∧ j' = .obj ms') ∨
    (∃ es es', j = .arr es ∧ j' = .arr es') := by
  cases h with
  | here pre post k w hk => exact Or.inl ⟨_, _, rfl, rfl⟩
  | inObj pre post k u u' hs => exact Or.inl ⟨_, _, rfl, rfl⟩
  | inArr pre post u u' hs => exact Or.inr ⟨_, _, rfl, rfl⟩

lemma sizeMems_append (xs ys : List (String × Json)) :
    sizeMems (xs ++ ys) = sizeMems xs + sizeMems ys := by
  induction xs with
  | nil => simp [sizeMems]
  | cons p rest ih =>
    obtain ⟨k, v⟩ := p
    rw [List.cons_append, sizeMems, sizeMems, ih]
    omega

lemma sizeElems_append (xs ys : List Json) :
    sizeElems (xs ++ ys) = sizeElems xs + sizeElems ys := by
  induction xs with
  | nil => simp [sizeElems]
  | cons e rest ih =>
    rw [List.cons_append, sizeElems, sizeElems, ih]
    omega

lemma Extends_size {j j' : Json} (h : Extends j j') : sizeJ j ≤ sizeJ j' := by
  induction h with
  | here pre post k w hk =>
    simp only [sizeJ, sizeMems_append, sizeMems]
    omega
  | inObj pre post k u u' hs ih =>
    simp only [sizeJ, sizeMems_append, sizeMems]
    omega
  | inArr pre post u u' hs ih =>
    simp only [sizeJ, sizeElems_append, sizeElems]
    omega

lemma lookupJ_here {k mk : String} (pre post : List (String × Json)) (w : Json)
    (hne : k ≠ mk) :
    lookupJ mk (pre ++ (k, w) :: post) = lookupJ mk (pre ++ post) := by
  induction pre with
  | nil => simp [lookupJ, hne]
  | cons p rest ih =>
    obtain ⟨k', v⟩ := p
    by_cases hk : k' = mk <;> simp [lookupJ, hk, ih]

lemma lookupJ_mid (mk k : String) (pre post : List (String × Json)) (u u' : Json) :
    lookupJ mk (pre ++ (k, u') :: post) = lookupJ mk (pre ++ (k, u) :: post) ∨
    (lookupJ mk (pre ++ (k, u) :: post) = some u ∧
      lookupJ mk (pre ++ (k, u') :: post) = some u') := by
  induction pre with
  | nil =>
    by_cases hk : k = mk
    · subst hk
      right
      simp [lookupJ]
    · left
      simp [lookupJ, hk]
  | cons p rest ih =>
    obtain ⟨k', v⟩ := p
    by_cases hk : k' = mk
    · left
      simp [lookupJ, hk]
    · simpa [lookupJ, hk] using ih

lemma asString_ok {p : String} {j : Json} {s : String} (h : asString p j = .ok s) :
    j = .str s := by
  cases j <;> simp [asString] at h <;> simp [h]

lemma mapExcept_ext {β : Type} {f : Json → Except ParseError β} {u u' : Json}
    (hf : ∀ b, f u = .ok b → f u' = .ok b) (pre post : List Json) :
    ∀ l, mapExcept f (pre ++ u :: post) = .ok l → mapExcept f (pre ++ u' :: post) = .ok l := by
  induction pre with
  | nil =>
    intro l h
    simp only [List.nil_append, mapExcept] at h ⊢
    split at h
    · simp at h
    · rename_i b hb
      rw [hf b hb]
      exact h
  | cons e rest ih =>
    intro l h
    simp only [List.cons_append, mapExcept, List.append_eq] at h ⊢
    split at h
    · simp at h
    · rename_i b hb
      split at h
      · simp at h
      · rename_i bs hbs
        rw [ih bs hbs]
        exact h

lemma decodeBranchElems_ext {u u' : Json}
    (hf : ∀ fuel b, decodeBranch fuel u = .ok b → decodeBranch fuel u' = .ok b)
    (pre post : List Json) :
    ∀ fuel l, decodeBranchElems fuel (pre ++ u :: post) = .ok l →
      decodeBranchElems fuel (pre ++ u' :: post) = .ok l := by
  induction pre with
  | nil =>
    intro fuel l h
    cases fuel with
    | zero => simp [decodeBranchElems] at h
    | succ f =>
      simp only [List.nil_append, decodeBranchElems] at h ⊢
      split at h
      · simp at h
      · rename_i b hb
        rw [hf f b hb]
        exact h
  | cons e rest ih =>
    intro fuel l h
    cases fuel with
    | zero => simp [decodeBranchElems] at h
    | succ f =>
      simp only [List.cons_append, decodeBranchElems, List.append_eq] at h ⊢
      split at h
      · simp at h
      · rename_i b hb
        split at h
        · simp at h
        · rename_i bs hbs
          rw [ih f bs hbs]
          exact h

/-- A JSON value that is an object or an array (the only shapes related by
`Extends`). -/
def IsObjArr (j : Json) : Prop :=
  (∃ ms, j = .obj ms) ∨ (∃ es, j = .arr es)

lemma Extends_isObjArr {j j' : Json} (h : Extends j j') : IsObjArr j ∧ IsObjArr j' := by
  rcases Extends_shape h with ⟨ms, ms', rfl, rfl⟩ | ⟨es, es', rfl, rfl⟩
  · exact ⟨Or.inl ⟨_, rfl⟩, Or.inl ⟨_, rfl⟩⟩
  · exact ⟨Or.inr ⟨_, rfl⟩, Or.inr ⟨_, rfl⟩⟩

lemma asString_objarr {p : String} {u : Json} {s : String} (hu : IsObjArr u)
    (h : asString p u = .ok s) : False := by
  rcases hu with ⟨ms, rfl⟩ | ⟨es, rfl⟩ <;> simp [asString] at h

lemma denull_objarr {u : Json} (hu : IsObjArr u) : denull (some u) = some u := by
  rcases hu with ⟨ms, rfl⟩ | ⟨es, rfl⟩ <;> rfl

lemma optField_congr {k : String} {kvs kvs' : List (String × Json)}
    (h : lookupJ k kvs' = lookupJ k kvs) : optField k kvs' = optField k kvs := by
  simp [optField, h]

lemma reqStr_ok {k : String} {kvs : List (String × Json)} {s : String}
    (h : reqStr k kvs = .ok s) : lookupJ k kvs = some (.str s) := by
  simp only [reqStr, reqField] at h
  cases hl : lookupJ k kvs with
  | none => rw [hl] at h; simp at h
  | some j =>
    rw [hl] at h
    simp only [] at h
    rw [asString_ok h]

lemma optStr_ok {k : String} {kvs : List (String × Json)} {r : Option String}
    (h : optStr k kvs = .ok r) :
    (optField k kvs = none ∧ r = none) ∨
    ∃ s, optField k kvs = some (.str s) ∧ r = some s := by
  simp only [optStr] at h
  split at h
  · rename_i heq
    simp only [Except.ok.injEq] at h
    exact Or.inl ⟨heq, h.symm⟩
  · rename_i j heq
    split at h
    · simp at h
    · rename_i s hs
      simp only [Except.ok.injEq] at h
      exact Or.inr ⟨s, by rw [heq, asString_ok hs], h.symm⟩

lemma H_str {kvs kvs' : List (String × Json)} {u u' : Json} {k s : String}
    (hu : IsObjArr u)
    (Hk : lookupJ k kvs' = lookupJ k kvs ∨
      (lookupJ k kvs = some u ∧ lookupJ k kvs' = some u'))
    (hk : lookupJ k kvs = some (.str s)) : lookupJ k kvs' = some (.str s) := by
  rcases Hk with heq | ⟨hl, hl'⟩
  · rw [heq, hk]
  · rw [hk] at hl
    simp only [Option.some.injEq] at hl
    rcases hu with ⟨ms, rfl⟩ | ⟨es, rfl⟩ <;> simp at hl

lemma H_optStr {kvs kvs' : List (String × Json)} {u u' : Json} {k : String}
    {r : Option String} (hu : IsObjArr u)
    (Hk : lookupJ k kvs' = lookupJ k kvs ∨
      (lookupJ k kvs = some u ∧ lookupJ k kvs' = some u'))
    (hk : optStr k kvs = .ok r) : optStr k kvs' = .ok r := by
  rcases optStr_ok hk with ⟨hnone, rfl⟩ | ⟨s, hsome, rfl⟩
  · rcases Hk with heq | ⟨hl, hl'⟩
    · simp [optStr, optField_congr heq, hnone]
    · rw [show optField k kvs = some u by simp [optField, hl, denull_objarr hu]] at hnone
      simp at hnone
  · rcases Hk with heq | ⟨hl, hl'⟩
    · simp [optStr, optField_congr heq, hsome, asString]
    · rw [show optField k kvs = some u by simp [optField, hl, denull_objarr hu]] at hsome
      simp only [Option.some.injEq] at hsome
      rcases hu with ⟨ms, rfl⟩ | ⟨es, rfl⟩ <;> simp at hsome

lemma decodeRevision_congr {kvs kvs' : List (String × Json)}
    (h1 : lookupJ "date" kvs' = lookupJ "date" kvs)
    (h2 : lookupJ "number" kvs' = lookupJ "number" kvs)
    (h3 : lookupJ "summary" kvs' = lookupJ "summary" kvs) :
    decodeRevision (.obj kvs') = decodeRevision (.obj kvs) := by
  simp only [decodeRevision, asObj, reqStr, reqField, h1, h2, h3]

lemma decodePublisher_congr {kvs kvs' : List (String × Json)}
    (h1 : lookupJ "category" kvs' = lookupJ "category" kvs)
    (h2 : lookupJ "name" kvs' = lookupJ "name" kvs)
    (h3 : lookupJ "namespace" kvs' = lookupJ "namespace" kvs) :
    decodePublisher (.obj kvs') = decodePublisher (.obj kvs) := by
  simp only [decodePublisher, asObj, reqWith, reqStr, reqField, h1, h2, h3]

lemma decodeTracking_congr {kvs kvs' : List (String × Json)}
    (h1 : lookupJ "current_release_date" kvs' = lookupJ "current_release_date" kvs)
    (h2 : lookupJ "id" kvs' = lookupJ "id" kvs)
    (h3 : lookupJ "initial_release_date" kvs' = lookupJ "initial_release_date" kvs)
    (h4 : lookupJ "revision_history" kvs' = lookupJ "revision_history" kvs)
    (h5 : lookupJ "status" kvs' = lookupJ "status" kvs)
    (h6 : lookupJ "version" kvs' = lookupJ "version" kvs) :
    decodeTracking (.obj kvs') = decodeTracking (.obj kvs) := by
  simp only [decodeTracking, asObj, reqWith, reqStr, reqField, h1, h2, h3, h4, h5, h6]

lemma decodeDocument_congr {kvs kvs' : List (String × Json)}
    (h1 : lookupJ "category" kvs' = lookupJ "category" kvs)
    (h2 : lookupJ "csaf_version" kvs' = lookupJ "csaf_version" kvs)
    (h3 : lookupJ "publisher" kvs' = lookupJ "publisher" kvs)
    (h4 : lookupJ "title" kvs' = lookupJ "title" kvs)
    (h5 : lookupJ "tracking" kvs' = lookupJ "tracking" kvs)
    (h6 : lookupJ "lang" kvs' = lookupJ "lang" kvs) :
    decodeDocument (.obj kvs') = decodeDocument (.obj kvs) := by
  simp only [decodeDocument, asObj, reqWith, reqStr, reqField, optStr, optField,
    h1, h2, h3, h4, h5, h6]

lemma decodeFullProductName_congr {kvs kvs' : List (String × Json)}
    (h1 : lookupJ "name" kvs' = lookupJ "name" kvs)
    (h2 : lookupJ "product_id" kvs' = lookupJ "product_id" kvs) :
    decodeFullProductName (.obj kvs') = decodeFullProductName (.obj kvs) := by
  simp only [decodeFullProductName, asObj, reqStr, reqField, h1, h2]

lemma decodeBranch_congr (fuel : Nat) {kvs kvs' : List (String × Json)}
    (h1 : lookupJ "name" kvs' = lookupJ "name" kvs)
    (h2 : lookupJ "category" kvs' = lookupJ "category" kvs)
    (h3 : lookupJ "branches" kvs' = lookupJ "branches" kvs)
    (h4 : lookupJ "product" kvs' = lookupJ "product" kvs) :
    decodeBranch (fuel + 1) (.obj kvs') = decodeBranch (fuel + 1) (.obj kvs) := by
  simp only [decodeBranch, asObj, reqStr, reqField, optWith, optField, h1, h2, h3, h4]

lemma decodeProductTree_congr (fuel : Nat) {kvs kvs' : List (String × Json)}
    (h1 : lookupJ "branches" kvs' = lookupJ "branches" kvs)
    (h2 : lookupJ "relationships" kvs' = lookupJ "relationships" kvs) :
    decodeProductTree fuel (.obj kvs') = decodeProductTree fuel (.obj kvs) := by
  simp only [decodeProductTree, asObj, optWith, optField, h1, h2]

lemma decodeRelationship_congr {kvs kvs' : List (String × Json)}
    (h1 : lookupJ "category" kvs' = lookupJ "category" kvs)
    (h2 : lookupJ "product_reference" kvs' = lookupJ "product_reference" kvs)
    (h3 : lookupJ "relates_to_product_reference" kvs' =
      lookupJ "relates_to_product_reference" kvs) :
    decodeRelationship (.obj kvs') = decodeRelationship (.obj kvs) := by
  simp only [decodeRelationship, asObj, reqStr, reqField, h1, h2, h3]

lemma decodeProductStatus_congr {kvs kvs' : List (String × Json)}
    (h1 : lookupJ "fixed" kvs' = lookupJ "fixed" kvs)
    (h2 : lookupJ "known_affected" kvs' = lookupJ "known_affected" kvs) :
    decodeProductStatus (.obj kvs') = decodeProductStatus (.obj kvs) := by
  simp only [decodeProductStatus, asObj, optWith, optField, h1, h2]

lemma decodeRemediation_congr {kvs kvs' : List (String × Json)}
    (h1 : lookupJ "category" kvs' = lookupJ "category" kvs)
    (h2 : lookupJ "details" kvs' = lookupJ "details" kvs)
    (h3 : lookupJ "date" kvs' = lookupJ "date" kvs)
    (h4 : lookupJ "product_ids" kvs' = lookupJ "product_ids" kvs) :
    decodeRemediation (.obj kvs') = decodeRemediation (.obj kvs) := by
  simp only [decodeRemediation, asObj, reqWith, reqStr, reqField, optStr, optWith,
    optField, h1, h2, h3, h4]

lemma decodeScore_congr {kvs kvs' : List (String × Json)}
    (h1 : lookupJ "products" kvs' = lookupJ "products" kvs)
    (h2 : lookupJ "severity" kvs' = lookupJ "severity" kvs) :
    decodeScore (.obj kvs') = decodeScore (.obj kvs) := by
  simp only [decodeScore, asObj, reqWith, reqStr, reqField, optStr, optField, h1, h2]

lemma decodeVulnerability_congr {kvs kvs' : List (String × Json)}
    (h1 : lookupJ "cve" kvs' = lookupJ "cve" kvs)
    (h2 : lookupJ "title" kvs' = lookupJ "title" kvs)
    (h3 : lookupJ "product_status" kvs' = lookupJ "product_status" kvs)
    (h4 : lookupJ "remediations" kvs' = lookupJ "remediations" kvs)
    (h5 : lookupJ "scores" kvs' = lookupJ "scores" kvs) :
    decodeVulnerability (.obj kvs') = decodeVulnerability (.obj kvs) := by
  simp only [decodeVulnerability, asObj, optStr, optWith, optField, h1, h2, h3, h4, h5]

lemma H_reqStr {kvs kvs' : List (String × Json)} {u u' : Json} {k s : String}
    (hu : IsObjArr u)
    (Hk : lookupJ k kvs' = lookupJ k kvs ∨
      (lookupJ k kvs = some u ∧ lookupJ k kvs' = some u'))
    (h : reqStr k kvs = .ok s) : reqStr k kvs' = .ok s := by
  simp [reqStr, reqField, H_str hu Hk (reqStr_ok h), asString]

lemma H_reqWith {α : Type} {f : Json → Except ParseError α}
    {kvs kvs' : List (String × Json)} {u u' : Json} {k : String} {a : α}
    (Hk : lookupJ k kvs' = lookupJ k kvs ∨
      (lookupJ k kvs = some u ∧ lookupJ k kvs' = some u'))
    (hchild : ∀ b, f u = .ok b → f u' = .ok b)
    (h : reqWith f k kvs = .ok a) : reqWith f k kvs' = .ok a := by
  obtain ⟨j, hl, hf⟩ := reqWith_ok h
  rcases Hk with heq | ⟨hlu, hlu'⟩
  · simp [reqWith, heq, hl, hf]
  · rw [hl] at hlu
    simp only [Option.some.injEq] at hlu
    subst hlu
    simp [reqWith, hlu', hchild a hf]

lemma H_optWith {α : Type} {f : Json → Except ParseError α}
    {kvs kvs' : List (String × Json)} {u u' : Json} {k : String} {r : Option α}
    (hu : IsObjArr u) (hu' : IsObjArr u')
    (Hk : lookupJ k kvs' = lookupJ k kvs ∨
      (lookupJ k kvs = some u ∧ lookupJ k kvs' = some u'))
    (hchild : ∀ b, f u = .ok b → f u' = .ok b)
    (h : optWith f k kvs = .ok r) : optWith f k kvs' = .ok r := by
  rcases optWith_ok h with ⟨hnone, rfl⟩ | ⟨j, a, hof, hfj, rfl⟩
  · rcases Hk with heq | ⟨hl, hl'⟩
    · simp [optWith, optField_congr heq, hnone]
    · rw [show optField k kvs = some u by simp [optField, hl, denull_objarr hu]] at hnone
      simp at hnone
  · rcases Hk with heq | ⟨hl, hl'⟩
    · simp [optWith, optField_congr heq, hof, hfj]
    · have hofu : optField k kvs = some u := by simp [optField, hl, denull_objarr hu]
      rw [hofu] at hof
      simp only [Option.some.injEq] at hof
      subst hof
      have h2 : optField k kvs' = some u' := by simp [optField, hl', denull_objarr hu']
      simp [optWith, h2, hchild a hfj]

lemma decodeDocumentCategory_objarr {p : String} {u : Json} {c : DocumentCategory}
    (hu : IsObjArr u) (h : decodeDocumentCategory p u = .ok c) : False := by
  simp only [decodeDocumentCategory] at h
  split at h
  · simp at h
  · rename_i s hs
    exact asString_objarr hu hs

lemma decodePublisherCategory_objarr {p : String} {u : Json} {c : PublisherCategory}
    (hu : IsObjArr u) (h : decodePublisherCategory p u = .ok c) : False := by
  simp only [decodePublisherCategory] at h
  split at h
  · simp at h
  · rename_i s hs
    exact asString_objarr hu hs

lemma decodeTrackingStatus_objarr {p : String} {u : Json} {c : TrackingStatus}
    (hu : IsObjArr u) (h : decodeTrackingStatus p u = .ok c) : False := by
  simp only [decodeTrackingStatus] at h
  split at h
  · simp at h
  · rename_i s hs
    exact asString_objarr hu hs

lemma decodeRemediationCategory_objarr {p : String} {u : Json} {c : RemediationCategory}
    (hu : IsObjArr u) (h : decodeRemediationCategory p u = .ok c) : False := by
  simp only [decodeRemediationCategory] at h
  split at h
  · simp at h
  · rename_i s hs
    exact asString_objarr hu hs

/-- The bundle of fuel-monotonicity statements for the branch decoders. -/
def BranchMono (f1 : Nat) : Prop :=
  (∀ f2 j b, f1 ≤ f2 → decodeBranch f1 j = .ok b → decodeBranch f2 j = .ok b) ∧
  (∀ f2 j l, f1 ≤ f2 → decodeBranchList f1 j = .ok l → decodeBranchList f2 j = .ok l) ∧
  (∀ f2 es l, f1 ≤ f2 → decodeBranchElems f1 es = .ok l → decodeBranchElems f2 es = .ok l)

theorem branchMonoAll : ∀ f1, BranchMono f1 := by
  intro f1
  induction f1 with
  | zero =>
    refine ⟨?_, ?_, ?_⟩
    · intro f2 j b _ h
      simp [decodeBranch] at h
    · intro f2 j l _ h
      simp [decodeBranchList] at h
    · intro f2 es l _ h
      cases es with
      | nil =>
        simp only [decodeBranchElems, Except.ok.injEq] at h
        subst h
        cases f2 <;> rfl
      | cons e es => simp [decodeBranchElems] at h
  | succ f IH =>
    obtain ⟨IHb, IHl, IHe⟩ := IH
    refine ⟨?_, ?_, ?_⟩
    · intro f2 j b hf h
      obtain ⟨g2, rfl⟩ : ∃ g2, f2 = g2 + 1 := ⟨f2 - 1, by omega⟩
      simp only [decodeBranch] at h ⊢
      split at h
      · simp at h
      · rename_i kvs hkvs
        split at h
        · simp at h
        rename_i nm hnm
        split at h
        · simp at h
        rename_i cat hcat
        split at h
        · simp at h
        rename_i obs hobs
        have hobs' : optWith (decodeBranchList g2) "branches" kvs = .ok obs := by
          rcases optWith_ok hobs with ⟨hnone, rfl⟩ | ⟨j0, a, hof, hfj, rfl⟩
          · simp [optWith, hnone]
          · simp [optWith, hof, IHl g2 j0 a (by omega) hfj]
        rw [hobs']
        exact h
    · intro f2 j l hf h
      obtain ⟨g2, rfl⟩ : ∃ g2, f2 = g2 + 1 := ⟨f2 - 1, by omega⟩
      simp only [decodeBranchList] at h ⊢
      split at h
      · simp at h
      · rename_i es hes
        exact IHe g2 es l (by omega) h
    · intro f2 es l hf h
      cases es with
      | nil =>
        simp only [decodeBranchElems, Except.ok.injEq] at h
        subst h
        cases f2 <;> rfl
      | cons e es =>
        obtain ⟨g2, rfl⟩ : ∃ g2, f2 = g2 + 1 := ⟨f2 - 1, by omega⟩
        simp only [decodeBranchElems] at h ⊢
        split at h
        · simp at h
        · rename_i b hb
          rw [IHb g2 e b (by omega) hb]
          split at h
          · simp at h
          · rename_i bs hbs
            rw [IHe g2 es bs (by omega) hbs]
            exact h

lemma decodeProductTree_mono {f1 f2 : Nat} {j : Json} {pt : ProductTree}
    (hf : f1 ≤ f2) (h : decodeProductTree f1 j = .ok pt) :
    decodeProductTree f2 j = .ok pt := by
  simp only [decodeProductTree] at h ⊢
  split at h
  · simp at h
  · rename_i kvs hkvs
    split at h
    · simp at h
    rename_i obs hobs
    have hobs' : optWith (decodeBranchList f2) "branches" kvs = .ok obs := by
      rcases optWith_ok hobs with ⟨hnone, rfl⟩ | ⟨j0, a, hof, hfj, rfl⟩
      · simp [optWith, hnone]
      · simp [optWith, hof, (branchMonoAll f1).2.1 f2 j0 a hf hfj]
    rw [hobs']
    exact h

section ExtLemmas

variable {kvs kvs' : List (String × Json)} {u u' : Json}

lemma decodeRevision_ext (hu : IsObjArr u)
    (H : ∀ mk, mk ∈ modelKeys →
      lookupJ mk kvs' = lookupJ mk kvs ∨
      (lookupJ mk kvs = some u ∧ lookupJ mk kvs' = some u')) :
    ∀ r, decodeRevision (.obj kvs) = .ok r → decodeRevision (.obj kvs') = .ok r := by
  intro r h
  simp only [decodeRevision, asObj] at h ⊢
  split at h
  · simp at h
  rename_i d hd
  split at h
  · simp at h
  rename_i n hn
  split at h
  · simp at h
  rename_i s hs
  rw [H_reqStr hu (H "date" (by decide)) hd, H_reqStr hu (H "number" (by decide)) hn,
    H_reqStr hu (H "summary" (by decide)) hs]
  exact h

lemma decodePublisher_ext (hu : IsObjArr u)
    (H : ∀ mk, mk ∈ modelKeys →
      lookupJ mk kvs' = lookupJ mk kvs ∨
      (lookupJ mk kvs = some u ∧ lookupJ mk kvs' = some u')) :
    ∀ p, decodePublisher (.obj kvs) = .ok p → decodePublisher (.obj kvs') = .ok p := by
  intro p h
  simp only [decodePublisher, asObj] at h ⊢
  split at h
  · simp at h
  rename_i cat hcat
  split at h
  · simp at h
  rename_i nm hnm
  split at h
  · simp at h
  rename_i ns hns
  rw [H_reqWith (H "category" (by decide))
      (fun b hb => (decodePublisherCategory_objarr hu hb).elim) hcat,
    H_reqStr hu (H "name" (by decide)) hnm,
    H_reqStr hu (H "namespace" (by decide)) hns]
  exact h

lemma decodeTracking_ext (hu : IsObjArr u)
    (H : ∀ mk, mk ∈ modelKeys →
      lookupJ mk kvs' = lookupJ mk kvs ∨
      (lookupJ mk kvs = some u ∧ lookupJ mk kvs' = some u'))
    (hrl : ∀ l, decodeRevList u = .ok l → decodeRevList u' = .ok l) :
    ∀ t, decodeTracking (.obj kvs) = .ok t → decodeTracking (.obj kvs') = .ok t := by
  intro t h
  simp only [decodeTracking, asObj] at h ⊢
  split at h
  · simp at h
  rename_i crd hcrd
  split at h
  · simp at h
  rename_i tid htid
  split at h
  · simp at h
  rename_i ird hird
  split at h
  · simp at h
  rename_i rh hrh
  split at h
  · simp at h
  rename_i st hst
  split at h
  · simp at h
  rename_i ver hver
  rw [H_reqStr hu (H "current_release_date" (by decide)) hcrd,
    H_reqStr hu (H "id" (by decide)) htid,
    H_reqStr hu (H "initial_release_date" (by decide)) hird,
    H_reqWith (H "revision_history" (by decide)) hrl hrh,
    H_reqWith (H "status" (by decide))
      (fun b hb => (decodeTrackingStatus_objarr hu hb).elim) hst,
    H_reqStr hu (H "version" (by decide)) hver]
  exact h

lemma decodeDocument_ext (hu : IsObjArr u)
    (H : ∀ mk, mk ∈ modelKeys →
      lookupJ mk kvs' = lookupJ mk kvs ∨
      (lookupJ mk kvs = some u ∧ lookupJ mk kvs' = some u'))
    (hpub : ∀ p, decodePublisher u = .ok p → decodePublisher u' = .ok p)
    (htr : ∀ t, decodeTracking u = .ok t → decodeTracking u' = .ok t) :
    ∀ d, decodeDocument (.obj kvs) = .ok d → decodeDocument (.obj kvs') = .ok d := by
  intro d h
  simp only [decodeDocument, asObj] at h ⊢
  split at h
  · simp at h
  rename_i cat hcat
  split at h
  · simp at h
  rename_i ver hver
  split at h
  · simp at h
  rename_i pub hpubf
  split at h
  · simp at h
  rename_i ttl httl
  split at h
  · simp at h
  rename_i tr htrf
  split at h
  · simp at h
  rename_i lang hlang
  rw [H_reqWith (H "category" (by decide))
      (fun b hb => (decodeDocumentCategory_objarr hu hb).elim) hcat,
    H_reqStr hu (H "csaf_version" (by decide)) hver,
    H_reqWith (H "publisher" (by decide)) hpub hpubf,
    H_reqStr hu (H "title" (by decide)) httl,
    H_reqWith (H "tracking" (by decide)) htr htrf,
    H_optStr hu (H "lang" (by decide)) hlang]
  exact h

lemma decodeFullProductName_ext (hu : IsObjArr u)
    (H : ∀ mk, mk ∈ modelKeys →
      lookupJ mk kvs' = lookupJ mk kvs ∨
      (lookupJ mk kvs = some u ∧ lookupJ mk kvs' = some u')) :
    ∀ f, decodeFullProductName (.obj kvs) = .ok f →
      decodeFullProductName (.obj kvs') = .ok f := by
  intro f h
  simp only [decodeFullProductName, asObj] at h ⊢
  split at h
  · simp at h
  rename_i nm hnm
  split at h
  · simp at h
  rename_i pid hpid
  rw [H_reqStr hu (H "name" (by decide)) hnm,
    H_reqStr hu (H "product_id" (by decide)) hpid]
  exact h

lemma decodeBranch_ext (fuel : Nat) (hu : IsObjArr u) (hu' : IsObjArr u')
    (H : ∀ mk, mk ∈ modelKeys →
      lookupJ mk kvs' = lookupJ mk kvs ∨
      (lookupJ mk kvs = some u ∧ lookupJ mk kvs' = some u'))
    (hbl : ∀ l, decodeBranchList fuel u = .ok l → decodeBranchList fuel u' = .ok l)
    (hfp : ∀ f, decodeFullProductName u = .ok f → decodeFullProductName u' = .ok f) :
    ∀ b, decodeBranch (fuel + 1) (.obj kvs) = .ok b →
      decodeBranch (fuel + 1) (.obj kvs') = .ok b := by
  intro b h
  simp only [decodeBranch, asObj] at h ⊢
  split at h
  · simp at h
  rename_i nm hnm
  split at h
  · simp at h
  rename_i cat hcat
  split at h
  · simp at h
  rename_i obs hobs
  split at h
  · simp at h
  rename_i op hop
  rw [H_reqStr hu (H "name" (by decide)) hnm,
    H_reqStr hu (H "category" (by decide)) hcat,
    H_optWith hu hu' (H "branches" (by decide)) hbl hobs,
    H_optWith hu hu' (H "product" (by decide)) hfp hop]
  exact h

lemma decodeProductTree_ext (fuel : Nat) (hu : IsObjArr u) (hu' : IsObjArr u')
    (H : ∀ mk, mk ∈ modelKeys →
      lookupJ mk kvs' = lookupJ mk kvs ∨
      (lookupJ mk kvs = some u ∧ lookupJ mk kvs' = some u'))
    (hbl : ∀ l, decodeBranchList fuel u = .ok l → decodeBranchList fuel u' = .ok l)
    (hrel : ∀ l, decodeRelList u = .ok l → decodeRelList u' = .ok l) :
    ∀ pt, decodeProductTree fuel (.obj kvs) = .ok pt →
      decodeProductTree fuel (.obj kvs') = .ok pt := by
  intro pt h
  simp only [decodeProductTree, asObj] at h ⊢
  split at h
  · simp at h
  rename_i obs hobs
  split at h
  · simp at h
  rename_i orels horels
  rw [H_optWith hu hu' (H "branches" (by decide)) hbl hobs,
    H_optWith hu hu' (H "relationships" (by decide)) hrel horels]
  exact h

lemma decodeRelationship_ext (hu : IsObjArr u)
    (H : ∀ mk, mk ∈ modelKeys →
      lookupJ mk kvs' = lookupJ mk kvs ∨
      (lookupJ mk kvs = some u ∧ lookupJ mk kvs' = some u')) :
    ∀ r, decodeRelationship (.obj kvs) = .ok r → decodeRelationship (.obj kvs') = .ok r := by
  intro r h
  simp only [decodeRelationship, asObj] at h ⊢
  split at h
  · simp at h
  rename_i c hc
  split at h
  · simp at h
  rename_i pr hpr
  split at h
  · simp at h
  rename_i rpr hrpr
  rw [H_reqStr hu (H "category" (by decide)) hc,
    H_reqStr hu (H "product_reference" (by decide)) hpr,
    H_reqStr hu (H "relates_to_product_reference" (by decide)) hrpr]
  exact h

lemma decodeProductStatus_ext (hu : IsObjArr u) (hu' : IsObjArr u')
    (H : ∀ mk, mk ∈ modelKeys →
      lookupJ mk kvs' = lookupJ mk kvs ∨
      (lookupJ mk kvs = some u ∧ lookupJ mk kvs' = some u'))
    (hsl : ∀ p l, decodeStrList p u = .ok l → decodeStrList p u' = .ok l) :
    ∀ ps, decodeProductStatus (.obj kvs) = .ok ps →
      decodeProductStatus (.obj kvs') = .ok ps := by
  intro ps h
  simp only [decodeProductStatus, asObj] at h ⊢
  split at h
  · simp at h
  rename_i ofix hofix
  split at h
  · simp at h
  rename_i oka hoka
  rw [H_optWith hu hu' (H "fixed" (by decide)) (hsl "fixed") hofix,
    H_optWith hu hu' (H "known_affected" (by decide)) (hsl "known_affected") hoka]
  exact h

lemma decodeRemediation_ext (hu : IsObjArr u) (hu' : IsObjArr u')
    (H : ∀ mk, mk ∈ modelKeys →
      lookupJ mk kvs' = lookupJ mk kvs ∨
      (lookupJ mk kvs = some u ∧ lookupJ mk kvs' = some u'))
    (hsl : ∀ p l, decodeStrList p u = .ok l → decodeStrList p u' = .ok l) :
    ∀ r, decodeRemediation (.obj kvs) = .ok r → decodeRemediation (.obj kvs') = .ok r := by
  intro r h
  simp only [decodeRemediation, asObj] at h ⊢
  split at h
  · simp at h
  rename_i cat hcat
  split at h
  · simp at h
  rename_i det hdet
  split at h
  · simp at h
  rename_i dt hdt
  split at h
  · simp at h
  rename_i pids hpids
  rw [H_reqWith (H "category" (by decide))
      (fun b hb => (decodeRemediationCategory_objarr hu hb).elim) hcat,
    H_optStr hu (H "details" (by decide)) hdet,
    H_optStr hu (H "date" (by decide)) hdt,
    H_optWith hu hu' (H "product_ids" (by decide)) (hsl "product_ids") hpids]
  exact h

lemma decodeScore_ext (hu : IsObjArr u)
    (H : ∀ mk, mk ∈ modelKeys →
      lookupJ mk kvs' = lookupJ mk kvs ∨
      (lookupJ mk kvs = some u ∧ lookupJ mk kvs' = some u'))
    (hsl : ∀ p l, decodeStrList p u = .ok l → decodeStrList p u' = .ok l) :
    ∀ s, decodeScore (.obj kvs) = .ok s → decodeScore (.obj kvs') = .ok s := by
  intro s h
  simp only [decodeScore, asObj] at h ⊢
  split at h
  · simp at h
  rename_i prods hprods
  split at h
  · simp at h
  rename_i sev hsev
  rw [H_reqWith (H "products" (by decide)) (hsl "products") hprods,
    H_optStr hu (H "severity" (by decide)) hsev]
  exact h

lemma decodeVulnerability_ext (hu : IsObjArr u) (hu' : IsObjArr u')
    (H : ∀ mk, mk ∈ modelKeys →
      lookupJ mk kvs' = lookupJ mk kvs ∨
      (lookupJ mk kvs = some u ∧ lookupJ mk kvs' = some u'))
    (hps : ∀ ps, decodeProductStatus u = .ok ps → decodeProductStatus u' = .ok ps)
    (hrem : ∀ l, decodeRemList u = .ok l → decodeRemList u' = .ok l)
    (hsc : ∀ l, decodeScoreList u = .ok l → decodeScoreList u' = .ok l) :
    ∀ v, decodeVulnerability (.obj kvs) = .ok v →
      decodeVulnerability (.obj kvs') = .ok v := by
  intro v h
  simp only [decodeVulnerability, asObj] at h ⊢
  split at h
  · simp at h
  rename_i cve hcve
  split at h
  · simp at h
  rename_i ttl httl
  split at h
  · simp at h
  rename_i ps hpsf
  split at h
  · simp at h
  rename_i rems hremf
  split at h
  · simp at h
  rename_i scs hscf
  rw [H_optStr hu (H "cve" (by decide)) hcve,
    H_optStr hu (H "title" (by decide)) httl,
    H_optWith hu hu' (H "product_status" (by decide)) hps hpsf,
    H_optWith hu hu' (H "remediations" (by decide)) hrem hremf,
    H_optWith hu hu' (H "scores" (by decide)) hsc hscf]
  exact h

lemma decodeCsaf_ext (hu : IsObjArr u) (hu' : IsObjArr u')
    (hsz : sizeJ (Json.obj kvs) ≤ sizeJ (Json.obj kvs'))
    (H : ∀ mk, mk ∈ modelKeys →
      lookupJ mk kvs' = lookupJ mk kvs ∨
      (lookupJ mk kvs = some u ∧ lookupJ mk kvs' = some u'))
    (hdoc : ∀ d, decodeDocument u = .ok d → decodeDocument u' = .ok d)
    (hpt : ∀ fuel pt, decodeProductTree fuel u = .ok pt →
      decodeProductTree fuel u' = .ok pt)
    (hvl : ∀ l, decodeVulnList u = .ok l → decodeVulnList u' = .ok l) :
    ∀ c, decodeCsaf (.obj kvs) = .ok c → decodeCsaf (.obj kvs') = .ok c := by
  intro c h
  simp only [decodeCsaf, asObj] at h ⊢
  split at h
  · simp at h
  rename_i doc hdocf
  split at h
  · simp at h
  rename_i pt hptf
  split at h
  · simp at h
  rename_i vl hvlf
  rw [H_reqWith (H "document" (by decide)) hdoc hdocf]
  have hptf' : optWith (decodeProductTree (sizeJ (Json.obj kvs'))) "product_tree" kvs' =
      .ok pt := by
    rcases optWith_ok hptf with ⟨hnone, rfl⟩ | ⟨j0, a, hof, hfj, rfl⟩
    · rcases H "product_tree" (by decide) with heq | ⟨hl, hl'⟩
      · simp [optWith, optField_congr heq, hnone]
      · rw [show optField "product_tree" kvs = some u by
            simp [optField, hl, denull_objarr hu]] at hnone
        simp at hnone
    · rcases H "product_tree" (by decide) with heq | ⟨hl, hl'⟩
      · have hj0 := lookupJ_size (optField_some hof)
        have hstab : decodeProductTree (sizeJ (Json.obj kvs')) j0 = .ok a := by
          rw [@decodeProductTree_stable (sizeJ (Json.obj kvs')) (sizeJ (Json.obj kvs)) j0
            (by simp only [sizeJ] at hsz ⊢; omega) (by simp only [sizeJ]; omega)]
          exact hfj
        simp [optWith, optField_congr heq, hof, hstab]
      · have hofu : optField "product_tree" kvs = some u := by
          simp [optField, hl, denull_objarr hu]
        rw [hofu] at hof
        simp only [Option.some.injEq] at hof
        subst hof
        have h1 : decodeProductTree (sizeJ (Json.obj kvs)) u' = .ok a := hpt _ a hfj
        have h2 : decodeProductTree (sizeJ (Json.obj kvs')) u' = .ok a :=
          decodeProductTree_mono hsz h1
        have hofu' : optField "product_tree" kvs' = some u' := by
          simp [optField, hl', denull_objarr hu']
        simp [optWith, hofu', h2]
  rw [hptf']
  rw [H_optWith hu hu' (H "vulnerabilities" (by decide)) hvl hvlf]
  exact h

end ExtLemmas

/-- The full invariance bundle under one unmodeled-key insertion: every
decoder of the model produces the same result on the extended value. -/
def ExtInv (j j' : Json) : Prop :=
  (∀ r, decodeRevision j = .ok r → decodeRevision j' = .ok r) ∧
  (∀ l, decodeRevList j = .ok l → decodeRevList j' = .ok l) ∧
  (∀ p, decodePublisher j = .ok p → decodePublisher j' = .ok p) ∧
  (∀ t, decodeTracking j = .ok t → decodeTracking j' = .ok t) ∧
  (∀ d, decodeDocument j = .ok d → decodeDocument j' = .ok d) ∧
  (∀ f, decodeFullProductName j = .ok f → decodeFullProductName j' = .ok f) ∧
  (∀ fuel b, decodeBranch fuel j = .ok b → decodeBranch fuel j' = .ok b) ∧
  (∀ fuel l, decodeBranchList fuel j = .ok l → decodeBranchList fuel j' = .ok l) ∧
  (∀ fuel pt, decodeProductTree fuel j = .ok pt → decodeProductTree fuel j' = .ok pt) ∧
  (∀ r, decodeRelationship j = .ok r → decodeRelationship j' = .ok r) ∧
  (∀ l, decodeRelList j = .ok l → decodeRelList j' = .ok l) ∧
  (∀ p l, decodeStrList p j = .ok l → decodeStrList p j' = .ok l) ∧
  (∀ ps, decodeProductStatus j = .ok ps → decodeProductStatus j' = .ok ps) ∧
  (∀ r, decodeRemediation j = .ok r → decodeRemediation j' = .ok r) ∧
  (∀ l, decodeRemList j = .ok l → decodeRemList j' = .ok l) ∧
  (∀ s, decodeScore j = .ok s → decodeScore j' = .ok s) ∧
  (∀ l, decodeScoreList j = .ok l → decodeScoreList j' = .ok l) ∧
  (∀ v, decodeVulnerability j = .ok v → decodeVulnerability j' = .ok v) ∧
  (∀ l, decodeVulnList j = .ok l → decodeVulnList j' = .ok l) ∧
  (∀ c, decodeCsaf j = .ok c → decodeCsaf j' = .ok c)

theorem extAll {j j' : Json} (h : Extends j j') : ExtInv j j' := by
  induction h with
  | here pre post k w hk =>
    have H : ∀ mk, mk ∈ modelKeys →
        lookupJ mk (pre ++ (k, w) :: post) = lookupJ mk (pre ++ post) ∨
        (lookupJ mk (pre ++ post) = some (Json.obj []) ∧
          lookupJ mk (pre ++ (k, w) :: post) = some (Json.obj [])) := by
      intro mk hm
      exact Or.inl (lookupJ_here pre post w (fun he => hk (by rw [he]; exact hm)))
    have hio : IsObjArr (Json.obj []) := Or.inl ⟨_, rfl⟩
    have hsz : sizeJ (Json.obj (pre ++ post)) ≤
        sizeJ (Json.obj (pre ++ (k, w) :: post)) :=
      Extends_size (.here pre post k w hk)
    refine ⟨?_, ?_, ?_, ?_, ?_, ?_, ?_, ?_, ?_, ?_, ?_, ?_, ?_, ?_, ?_, ?_, ?_, ?_, ?_, ?_⟩
    · exact decodeRevision_ext hio H
    · intro l h
      simp [decodeRevList, asArr] at h
    · exact decodePublisher_ext hio H
    · exact decodeTracking_ext hio H (fun _ h => h)
    · exact decodeDocument_ext hio H (fun _ h => h) (fun _ h => h)
    · exact decodeFullProductName_ext hio H
    · intro fuel b hb
      cases fuel with
      | zero => simp [decodeBranch] at hb
      | succ f => exact decodeBranch_ext f hio hio H (fun _ h => h) (fun _ h => h) b hb
    · intro fuel l hl
      cases fuel with
      | zero => simp [decodeBranchList] at hl
      | succ f => simp [decodeBranchList, asArr] at hl
    · exact fun fuel pt =>
        decodeProductTree_ext fuel hio hio H (fun _ h => h) (fun _ h => h) pt
    · exact decodeRelationship_ext hio H
    · intro l h
      simp [decodeRelList, asArr] at h
    · intro p l h
      simp [decodeStrList, asArr] at h
    · exact decodeProductStatus_ext hio hio H (fun _ _ h => h)
    · exact decodeRemediation_ext hio hio H (fun _ _ h => h)
    · intro l h
      simp [decodeRemList, asArr] at h
    · exact decodeScore_ext hio H (fun _ _ h => h)
    · intro l h
      simp [decodeScoreList, asArr] at h
    · exact decodeVulnerability_ext hio hio H (fun _ h => h) (fun _ h => h) (fun _ h => h)
    · intro l h
      simp [decodeVulnList, asArr] at h
    · exact decodeCsaf_ext hio hio hsz H (fun _ h => h) (fun _ _ h => h) (fun _ h => h)
  | inObj pre post k u u' hs ih =>
    obtain ⟨ihRev, ihRevL, ihPub, ihTr, ihDoc, ihFpn, ihBr, ihBrL, ihPT, ihRel,
      ihRelL, ihSL, ihPS, ihRem, ihRemL, ihSc, ihScL, ihVuln, ihVulnL, ihCsaf⟩ := ih
    obtain ⟨hu, hu'⟩ := Extends_isObjArr hs
    have H : ∀ mk, mk ∈ modelKeys →
        lookupJ mk (pre ++ (k, u') :: post) = lookupJ mk (pre ++ (k, u) :: post) ∨
        (lookupJ mk (pre ++ (k, u) :: post) = some u ∧
          lookupJ mk (pre ++ (k, u') :: post) = some u') :=
      fun mk _ => lookupJ_mid mk k pre post u u'
    have hsz : sizeJ (Json.obj (pre ++ (k, u) :: post)) ≤
        sizeJ (Json.obj (pre ++ (k, u') :: post)) :=
      Extends_size (.inObj pre post k u u' hs)
    refine ⟨?_, ?_, ?_, ?_, ?_, ?_, ?_, ?_, ?_, ?_, ?_, ?_, ?_, ?_, ?_, ?_, ?_, ?_, ?_, ?_⟩
    · exact decodeRevision_ext hu H
    · intro l h
      simp [decodeRevList, asArr] at h
    · exact decodePublisher_ext hu H
    · exact decodeTracking_ext hu H ihRevL
    · exact decodeDocument_ext hu H ihPub ihTr
    · exact decodeFullProductName_ext hu H
    · intro fuel b hb
      cases fuel with
      | zero => simp [decodeBranch] at hb
      | succ f => exact decodeBranch_ext f hu hu' H (ihBrL f) ihFpn b hb
    · intro fuel l hl
      cases fuel with
      | zero => simp [decodeBranchList] at hl
      | succ f => simp [decodeBranchList, asArr] at hl
    · exact fun fuel pt => decodeProductTree_ext fuel hu hu' H (ihBrL fuel) ihRelL pt
    · exact decodeRelationship_ext hu H
    · intro l h
      simp [decodeRelList, asArr] at h
    · intro p l h
      simp [decodeStrList, asArr] at h
    · exact decodeProductStatus_ext hu hu' H ihSL
    · exact decodeRemediation_ext hu hu' H ihSL
    · intro l h
      simp [decodeRemList, asArr] at h
    · exact decodeScore_ext hu H ihSL
    · intro l h
      simp [decodeScoreList, asArr] at h
    · exact decodeVulnerability_ext hu hu' H ihPS ihRemL ihScL
    · intro l h
      simp [decodeVulnList, asArr] at h
    · exact decodeCsaf_ext hu hu' hsz H ihDoc ihPT ihVulnL
  | inArr pre post u u' hs ih =>
    obtain ⟨ihRev, ihRevL, ihPub, ihTr, ihDoc, ihFpn, ihBr, ihBrL, ihPT, ihRel,
      ihRelL, ihSL, ihPS, ihRem, ihRemL, ihSc, ihScL, ihVuln, ihVulnL, ihCsaf⟩ := ih
    obtain ⟨hu, hu'⟩ := Extends_isObjArr hs
    refine ⟨?_, ?_, ?_, ?_, ?_, ?_, ?_, ?_, ?_, ?_, ?_, ?_, ?_, ?_, ?_, ?_, ?_, ?_, ?_, ?_⟩
    · intro r h
      simp [decodeRevision, asObj] at h
    · intro l h
      simp only [decodeRevList, asArr] at h ⊢
      exact mapExcept_ext ihRev pre post l h
    · intro p h
      simp [decodePublisher, asObj] at h
    · intro t h
      simp [decodeTracking, asObj] at h
    · intro d h
      simp [decodeDocument, asObj] at h
    · intro f h
      simp [decodeFullProductName, asObj] at h
    · intro fuel b hb
      cases fuel with
      | zero => simp [decodeBranch] at hb
      | succ f => simp [decodeBranch, asObj] at hb
    · intro fuel l hl
      cases fuel with
      | zero => simp [decodeBranchList] at hl
      | succ f =>
        simp only [decodeBranchList, asArr] at hl ⊢
        exact decodeBranchElems_ext ihBr pre post f l hl
    · intro fuel pt h
      simp [decodeProductTree, asObj] at h
    · intro r h
      simp [decodeRelationship, asObj] at h
    · intro l h
      simp only [decodeRelList, asArr] at h ⊢
      exact mapExcept_ext ihRel pre post l h
    · intro p l h
      simp only [decodeStrList, asArr] at h ⊢
      exact mapExcept_ext (fun b hb => (asString_objarr hu hb).elim) pre post l h
    · intro ps h
      simp [decodeProductStatus, asObj] at h
    · intro r h
      simp [decodeRemediation, asObj] at h
    · intro l h
      simp only [decodeRemList, asArr] at h ⊢
      exact mapExcept_ext ihRem pre post l h
    · intro s h
      simp [decodeScore, asObj] at h
    · intro l h
      simp only [decodeScoreList, asArr] at h ⊢
      exact mapExcept_ext ihSc pre post l h
    · intro v h
      simp [decodeVulnerability, asObj] at h
    · intro l h
      simp only [decodeVulnList, asArr] at h ⊢
      exact mapExcept_ext ihVuln pre post l h
    · intro c h
      simp [decodeCsaf, asObj] at h

/-- C4: unknown-field tolerance. If a byte sequence `b` parses to the JSON
value `j` which decodes to the document `v`, and `j'` is `j` with one extra
member injected into any object inside it under a key not present in the data
model (the `Extends` relation), then any byte sequence `b'` carrying `j'`
still parses successfully and produces exactly the same document `v`. -/
theorem csaf_unknown_field_tolerance (b b' : String) (j j' : Json) (v : Csaf)
    (hb : parseText b = .ok j) (hj : decodeCsaf j = .ok v)
    (hext : Extends j j') (hb' : parseText b' = .ok j') :
    parse b = .ok v ∧ parse b' = .ok v := by
  refine ⟨by simp [parse, hb, hj], ?_⟩
  obtain ⟨-, -, -, -, -, -, -, -, -, -, -, -, -, -, -, -, -, -, -, hC⟩ := extAll hext
  simp [parse, hb', hC v hj]

/-- The top-level member list of the generic template's JSON value. -/
def exampleMems : List (String × Json) := objMembers (Csaf.toJson exampleCsaf)

/-- The generic template with one unmodeled top-level key injected. -/
def exampleExtJson : Json := Json.obj (("x_extension", Json.str "1") :: exampleMems)

set_option maxRecDepth 20000 in
/-- Witness for C4: injecting the unmodeled key `x_extension` into the
top-level object of the generic template still parses, to the same value. -/
theorem csaf_unknown_field_tolerance_witness :
    parse (String.mk (renderJson exampleExtJson)) = .ok exampleCsaf :=
  (csaf_unknown_field_tolerance (serialize exampleCsaf)
    (String.mk (renderJson exampleExtJson)) (Json.obj exampleMems) exampleExtJson
    exampleCsaf (by rfl) (by rfl)
    (Extends.here [] exampleMems "x_extension" (Json.str "1") (by decide))
    (by rfl)).2

/-- Modelled from the spec: the minimal ("RustSec"-style) advisory
representation handled by the interop converter (spec section 4.4):
identifier, title, description, date, one affected package with an optional
fixed version, severity, aliases and an optional withdrawal date. -/
structure MinimalAdvisory where
  identifier : String
  title : String
  description : Option String
  date : String
  package : Option String
  fixed_version : Option String
  severity : Option String
  aliases : List String
  withdrawn : Option String
deriving DecidableEq

/-- Modelled from the spec: a synthesized product identifier, one per
distinct package (spec section 4.4). -/
def synthProductId (pkg : String) : String := "CSAFPID-" ++ pkg

/-- Modelled from the spec: the forward conversion minimal → Csaf (spec
section 4.4).  It synthesizes the mandatory document/tracking structure the
minimal format lacks — a single-entry revision history at the advisory's
date, the tracking id from the identifier, status `final` unless a
withdrawal date is present, the publisher from the caller-supplied
default — and exactly one vulnerability entry; one remediation only when a
fixed version is known; fields with no minimal-format source stay absent. -/
def from_minimal_advisory (a : MinimalAdvisory) (defaultPublisher : Publisher) : Csaf :=
  let status : TrackingStatus :=
    match a.withdrawn with
    | none => .final
    | some _ => .unrecognized "withdrawn"
  let pids : Option (List String) :=
    match a.package with
    | none => none
    | some pkg => some [synthProductId pkg]
  let rems : Option (List Remediation) :=
    match a.fixed_version with
    | none => none
    | some v => some [⟨.vendor_fix, some (String.append "Update to " v), none, pids⟩]
  let ps : Option ProductStatus :=
    match a.package with
    | none => none
    | some pkg =>
      some ⟨(match a.fixed_version with
             | none => none
             | some _ => some [synthProductId pkg]),
        some [synthProductId pkg]⟩
  let scores : Option (List Score) :=
    match a.severity, a.package with
    | none, _ => none
    | some sev, none => some [⟨[], some sev⟩]
    | some sev, some pkg => some [⟨[synthProductId pkg], some sev⟩]
  let vuln : Vulnerability := ⟨a.aliases.head?, some a.title, ps, rems, scores⟩
  ⟨⟨.csaf_security_advisory, "2.0", defaultPublisher, a.title,
    ⟨a.date, a.identifier, a.date, [⟨a.date, "1", "Initial version."⟩], status, "1"⟩,
    none⟩,
   none, some [vuln]⟩

/-- Modelled from the spec: the reverse conversion Csaf → minimal (spec
section 4.4).  It requires exactly one vulnerability entry
(`multipleVulnerabilities` otherwise) and a populated identifier, title and
date, recovered from `tracking.id`, the document title and the first
revision-history entry; severity comes from the first available score;
everything else is a best-effort projection, not an inverse. -/
def to_minimal_advisory (c : Csaf) : Except InteropError MinimalAdvisory :=
  match c.vulnerabilities with
  | some [v] =>
    if c.document.tracking.id = "" then .error (.missingRequiredField "identifier")
    else if c.document.title = "" then .error (.missingRequiredField "title")
    else
      match c.document.tracking.revision_history with
      | [] => .error (.missingRequiredField "date")
      | r :: _ =>
        .ok ⟨c.document.tracking.id, c.document.title, none, r.date, none, none,
          (match v.scores with
           | some (s :: _) => s.severity
           | _ => none),
          (match v.cve with
           | some cv => [cv]
           | none => []),
          none⟩
  | _ => .error .multipleVulnerabilities

/-- C7: a Csaf value whose vulnerabilities list contains two or more entries
fails reverse conversion with the `multipleVulnerabilities` interop error. -/
theorem csaf_interop_multiple_vulnerabilities (c : Csaf) (v1 v2 : Vulnerability)
    (rest : List Vulnerability) (h : c.vulnerabilities = some (v1 :: v2 :: rest)) :
    to_minimal_advisory c = .error .multipleVulnerabilities := by
  simp only [to_minimal_advisory, h]

/-- Witness for C7: the generic template document with two empty
vulnerability entries is rejected. -/
theorem csaf_interop_multiple_vulnerabilities_witness :
    to_minimal_advisory ⟨exampleDocument, none,
        some [⟨none, none, none, none, none⟩, ⟨none, none, none, none, none⟩]⟩ =
      .error .multipleVulnerabilities :=
  csaf_interop_multiple_vulnerabilities _ ⟨none, none, none, none, none⟩
    ⟨none, none, none, none, none⟩ [] rfl

/-- C8: forward conversion of a minimal advisory with a present identifier,
title and date, followed by reverse conversion, succeeds and recovers the
identifier, the title and the date unchanged. -/
theorem csaf_interop_forward_back (a : MinimalAdvisory) (p : Publisher)
    (hid : a.identifier ≠ "") (ht : a.title ≠ "") :
    ∃ m, to_minimal_advisory (from_minimal_advisory a p) = .ok m ∧
      m.identifier = a.identifier ∧ m.title = a.title ∧ m.date = a.date := by
  simp only [to_minimal_advisory, from_minimal_advisory, if_neg hid, if_neg ht]
  exact ⟨_, rfl, rfl, rfl, rfl⟩

/-- The minimal advisory of the spec's happy-path acceptance example. -/
def exampleMinimal : MinimalAdvisory :=
  ⟨"RUSTSEC-2021-0001", "Example", none, "2021-01-01", some "example-crate",
   some "1.2.3", some "high", ["CVE-2021-0001"], none⟩

/-- Witness for C8 at the spec's example advisory. -/
theorem csaf_interop_forward_back_witness :
    ("RUSTSEC-2021-0001" : String) ≠ "" ∧ ("Example" : String) ≠ "" ∧
    ∃ m, to_minimal_advisory (from_minimal_advisory exampleMinimal examplePublisher) =
        .ok m ∧
      m.identifier = "RUSTSEC-2021-0001" ∧ m.title = "Example" ∧ m.date = "2021-01-01" :=
  ⟨by decide, by decide,
    csaf_interop_forward_back exampleMinimal examplePublisher (by decide) (by decide)⟩
